import Mathlib

/-!
Shallow embedding of the dexterdb seeding engine (the Seeder classes of the
Mongoose variant and the Prisma variant, their dependency orderer, field value
synthesis, reference resolution and insertion paths), together with proofs of
the spec's claims about them.

Conventions of the embedding:
* JavaScript `undefined` is `Option.none`; JavaScript `null` is the explicit
  value `Value.null` (the two are distinct in the source and the distinction is
  observable: only `undefined` is stripped from generated records).
* The faker-based generators (StringGenerator, NumberGenerator, DateGenerator,
  BooleanGenerator) only produce values, never `undefined`, per their TypeScript
  signatures; they are abstracted as an oracle.  EnumGenerator, whose exact
  behaviour claims depend on, is embedded verbatim.
* Randomness (`_.sample`, `_.random`, `_.shuffle`, faker) is modelled by an
  oracle consuming a tick counter threaded through the state, so any sequence
  of random outcomes is representable and claims are proved for all oracles.
* The storage client (an external collaborator per the spec) is modelled as
  named tables of records; store-assigned identifiers are modelled as a
  monotone counter, so `find().sort(id desc)` is reverse insertion order.
  Each storage operation is recorded in a trace, and may be made to throw by
  the environment, which models storage-level failures.
* The depth-first `visit` of `sortModelsByDependencies` is embedded with an
  explicit fuel argument; the driver passes `models.length + 1`, which the
  fuel-accounting in the proofs below shows is sufficient (each nested
  non-trivial call adds a fresh model name to the `visiting` set).
-/

/-- A JavaScript runtime value as far as the seeding engine observes it. -/
inductive Value where
  | str (s : String)
  | num (n : Int)
  | bool (b : Bool)
  | date (epoch : Nat)
  | oid (n : Nat)
  | list (vs : List Value)
  | obj (fs : List (String × Value))
  | fn
  | null

/-- JavaScript truthiness of a value. -/
def truthy : Value → Bool
  | .str s => s ≠ ""
  | .num n => n ≠ 0
  | .bool b => b
  | .date _ => true
  | .oid _ => true
  | .list _ => true
  | .obj _ => true
  | .fn => true
  | .null => false

/-- Truthiness of an optional string (`undefined` and the empty string are falsy). -/
def truthyStr : Option String → Bool
  | some s => s ≠ ""
  | none => false

/-- A field of a model as produced by schema introspection (`SchemaField`). -/
structure SchemaField where
  name : String
  type : String
  isRequired : Bool := false
  isUnique : Bool := false
  isPrimaryKey : Bool := false
  isForeignKey : Bool := false
  relationModel : Option String := none
  relationField : Option String := none
  defaultValue : Option Value := none
  enumValues : Option (List Value) := none

/-- A relation of a model (`SchemaRelation`); the seeder reads `name` and `type`. -/
structure SchemaRelation where
  name : String
  type : String
  relatedModel : String := ""
deriving DecidableEq

/-- A model of the registry (`SchemaModel`). -/
structure SchemaModel where
  name : String
  fields : List SchemaField
  relations : List SchemaRelation := []

/-- Per-field configuration override (`FieldConfig`). -/
structure FieldConfig where
  type : Option String := none
  generator : Option String := none
  min : Option Int := none
  max : Option Int := none
  pattern : Option String := none
  values : Option (List Value) := none
  defaultValue : Option Value := none
  ignore : Option Bool := none

/-- Per-relation configuration (`RelationConfig`). -/
structure RelationConfig where
  min : Option Int := none
  max : Option Int := none
  model : Option String := none
deriving DecidableEq

/-- Per-model configuration (`ModelConfig`); all keys optional so that the
JavaScript spread-merge is key-wise `Option.orElse`. -/
structure ModelConfig where
  count : Option Nat := none
  reset : Option Bool := none
  incremental : Option Bool := none
  fields : Option (List (String × FieldConfig)) := none
  relations : Option (List (String × RelationConfig)) := none

/-- Global configuration block (`SeederConfig.global`). -/
structure GlobalConfig where
  reset : Option Bool := none
  incremental : Option Bool := none
  randomize : Option Bool := none
deriving DecidableEq

/-- The whole configuration object (`SeederConfig`). -/
structure SeederConfig where
  global : Option GlobalConfig := none
  models : Option (List (String × ModelConfig)) := none

/-- `ConfigLoader.getModelConfig`: the model's entry of the config, or `{}`. -/
def getModelConfig (cfg : SeederConfig) (modelName : String) : ModelConfig :=
  ((cfg.models.getD []).lookup modelName).getD {}

/-- The JavaScript shallow spread `{...a, ...b}` on two `ModelConfig`s. -/
def mergeModelConfig (a b : ModelConfig) : ModelConfig :=
  { count := b.count.orElse fun _ => a.count
    reset := b.reset.orElse fun _ => a.reset
    incremental := b.incremental.orElse fun _ => a.incremental
    fields := b.fields.orElse fun _ => a.fields
    relations := b.relations.orElse fun _ => a.relations }

/-- `{...a, ...opts}` where `opts` may be absent (`options?: Partial<ModelConfig>`). -/
def mergeOpts (a : ModelConfig) : Option ModelConfig → ModelConfig
  | some b => mergeModelConfig a b
  | none => a

/-- Truthiness of an optional boolean flag. -/
def optTrue (o : Option Bool) : Bool := o.getD false

/-- The result record returned by `seed` (`SeedResult`). -/
structure SeedResult where
  model : String
  count : Nat
  success : Bool
  error : Option String := none
deriving DecidableEq, Repr

/-! ## The dependency orderer (`sortModelsByDependencies`, identical in both variants) -/

/-- The mutable state of the depth-first traversal: the `sorted` output list and
the `visited` / `visiting` name sets (modelled as lists used as sets). -/
structure SortState where
  sorted : List SchemaModel
  visited : List String
  visiting : List String

/-- `this.models.find(m => m.name === relationModel)`. -/
def findModel (models : List SchemaModel) (n : String) : Option SchemaModel :=
  models.find? (fun m => m.name == n)

/-- One iteration of the field loop inside `visit`: recurse (through the
`visit` argument) into the dependency of a foreign-key field whose target
model is found in the registry; otherwise leave the state unchanged. -/
def visitStep (models : List SchemaModel)
    (visit : SchemaModel → SortState → SortState)
    (f : SchemaField) (st : SortState) : SortState :=
  if f.isForeignKey && truthyStr f.relationModel then
    match f.relationModel with
    | some r =>
      match findModel models r with
      | some dep => visit dep st
      | none => st
    | none => st
  else st

/-- The `for (const field of model.fields)` loop inside `visit`. -/
def visitFold (models : List SchemaModel)
    (visit : SchemaModel → SortState → SortState) :
    List SchemaField → SortState → SortState
  | [], st => st
  | f :: rest, st => visitFold models visit rest (visitStep models visit f st)

/-- The inner `visit` closure of `sortModelsByDependencies`.  The fuel argument
bounds the recursion depth; the driver passes `models.length + 1`, which is
sufficient because every nested non-trivial call adds a fresh model name to
`visiting` (see the fuel accounting in the ordering proofs below). -/
def visitModel (models : List SchemaModel) : Nat → SchemaModel → SortState → SortState
  | 0, _, st => st
  | fuel + 1, m, st =>
    if st.visiting.contains m.name then st
    else if st.visited.contains m.name then st
    else
      let st1 : SortState := { st with visiting := m.name :: st.visiting }
      let st2 := visitFold models (visitModel models fuel) m.fields st1
      { st2 with
          visiting := st2.visiting.erase m.name
          visited := m.name :: st2.visited
          sorted := st2.sorted ++ [m] }

/-- `sortModelsByDependencies()`: visit every model not yet visited, in list
order, collecting the post-order into `sorted`. -/
def sortModelsByDependencies (models : List SchemaModel) : List SchemaModel :=
  (models.foldl
    (fun st m =>
      if st.visited.contains m.name then st
      else visitModel models (models.length + 1) m st)
    (⟨[], [], []⟩ : SortState)).sorted

/-! ### Invariants of the traversal -/

/-- Soundness of the registry lookup used by `visit`. -/
theorem findModel_sound {models : List SchemaModel} {n : String} {m : SchemaModel}
    (h : findModel models n = some m) : m ∈ models ∧ m.name = n := by
  unfold findModel at h
  have h1 := List.mem_of_find?_eq_some h
  have h2 := List.find?_some h
  simp at h2
  exact ⟨h1, h2⟩

/-- Case analysis of one field-loop iteration: it either leaves the state
unchanged or visits a dependency model found in the registry. -/
theorem visitStep_cases (models : List SchemaModel)
    (visit : SchemaModel → SortState → SortState) (f : SchemaField) (st : SortState) :
    visitStep models visit f st = st ∨
    ∃ dep r, f.isForeignKey = true ∧ f.relationModel = some r ∧
      findModel models r = some dep ∧ visitStep models visit f st = visit dep st := by
  unfold visitStep
  by_cases h : (f.isForeignKey && truthyStr f.relationModel) = true
  · rw [if_pos h]
    cases hr : f.relationModel with
    | none => exact Or.inl rfl
    | some r =>
      cases hd : findModel models r with
      | none =>
        refine Or.inl ?_
        show (match findModel models r with
              | some dep => visit dep st
              | none => st) = st
        rw [hd]
      | some dep =>
        refine Or.inr ⟨dep, r, (Bool.and_eq_true ..).mp h |>.1, rfl, hd, ?_⟩
        show (match findModel models r with
              | some dep => visit dep st
              | none => st) = visit dep st
        rw [hd]
  · rw [if_neg h]; exact Or.inl rfl

/-- The invariant of the traversal state that drives the permutation claims:
the output list's names are exactly the `visited` set (in reverse push order),
`visited` has no duplicates, and every emitted model comes from the registry. -/
def Inv3 (models : List SchemaModel) (st : SortState) : Prop :=
  st.sorted.map SchemaModel.name = st.visited.reverse ∧
  st.visited.Nodup ∧
  ∀ s ∈ st.sorted, s ∈ models

/-- The simulation relation preserved by `visit` and by the field loop:
`visiting` is restored, and (under the invariant and disjointness of
`visiting` from `visited`) the invariant is preserved, `visited` only grows,
and no name of `visiting` is ever added to `visited`. -/
def VisitOk (models : List SchemaModel) (st st' : SortState) : Prop :=
  st'.visiting = st.visiting ∧
  ((Inv3 models st ∧ ∀ v ∈ st.visiting, v ∉ st.visited) →
    (Inv3 models st' ∧ (∀ n ∈ st.visited, n ∈ st'.visited) ∧
      ∀ v ∈ st.visiting, v ∉ st'.visited))

theorem visitOk_refl (models : List SchemaModel) (st : SortState) :
    VisitOk models st st :=
  ⟨rfl, fun h => ⟨h.1, fun _ hn => hn, h.2⟩⟩

theorem visitOk_trans {models : List SchemaModel} {a b c : SortState}
    (hab : VisitOk models a b) (hbc : VisitOk models b c) : VisitOk models a c := by
  refine ⟨hbc.1.trans hab.1, fun ⟨hinv, hdisj⟩ => ?_⟩
  obtain ⟨hinvb, hgrowb, hkeepb⟩ := hab.2 ⟨hinv, hdisj⟩
  have hdisjb : ∀ v ∈ b.visiting, v ∉ b.visited := by
    intro v hv; exact hkeepb v (hab.1 ▸ hv)
  obtain ⟨hinvc, hgrowc, hkeepc⟩ := hbc.2 ⟨hinvb, hdisjb⟩
  refine ⟨hinvc, fun n hn => hgrowc n (hgrowb n hn), fun v hv => ?_⟩
  exact hkeepc v (hab.1 ▸ hv)

/-- `visitFold` preserves any reflexive-transitive relation preserved by the
`visit` argument on registry models. -/
theorem visitFold_rel (models : List SchemaModel)
    (visit : SchemaModel → SortState → SortState)
    (P : SortState → SortState → Prop)
    (hrefl : ∀ st, P st st)
    (htrans : ∀ a b c, P a b → P b c → P a c)
    (hv : ∀ m st, m ∈ models → P st (visit m st)) :
    ∀ fields st, P st (visitFold models visit fields st) := by
  intro fields
  induction fields with
  | nil => intro st; exact hrefl st
  | cons f rest ih =>
    intro st
    show P st (visitFold models visit rest (visitStep models visit f st))
    have hstep : P st (visitStep models visit f st) := by
      rcases visitStep_cases models visit f st with h | ⟨dep, r, _, _, hfind, heq⟩
      · rw [h]; exact hrefl st
      · rw [heq]; exact hv dep st (findModel_sound hfind).1
    exact htrans _ _ _ hstep (ih _)

/-- The central preservation lemma of the depth-first `visit`. -/
theorem visitModel_ok (models : List SchemaModel) :
    ∀ fuel (m : SchemaModel) (st : SortState), m ∈ models →
      VisitOk models st (visitModel models fuel m st) := by
  intro fuel
  induction fuel with
  | zero => intro m st _; exact visitOk_refl models st
  | succ fuel ih =>
    intro m st hm
    show VisitOk models st (visitModel models (fuel + 1) m st)
    rw [visitModel]
    by_cases h1 : st.visiting.contains m.name
    · rw [if_pos h1]; exact visitOk_refl models st
    · rw [if_neg h1]
      by_cases h2 : st.visited.contains m.name
      · rw [if_pos h2]; exact visitOk_refl models st
      · rw [if_neg h2]
        have hm_nv : m.name ∉ st.visiting := by
          intro hc; exact h1 (by simpa using hc)
        have hm_nd : m.name ∉ st.visited := by
          intro hc; exact h2 (by simpa using hc)
        set st1 : SortState := { st with visiting := m.name :: st.visiting } with hst1
        have hfold : VisitOk models st1 (visitFold models (visitModel models fuel) m.fields st1) :=
          visitFold_rel models (visitModel models fuel) (VisitOk models)
            (visitOk_refl models) (fun _ _ _ => visitOk_trans)
            (fun m' st' hm' => ih m' st' hm') m.fields st1
        set st2 := visitFold models (visitModel models fuel) m.fields st1 with hst2
        have hvis2 : st2.visiting = m.name :: st.visiting := hfold.1
        constructor
        · show (st2.visiting.erase m.name) = st.visiting
          rw [hvis2, List.erase_cons_head]
        · rintro ⟨hinv, hdisj⟩
          have hdisj1 : ∀ v ∈ st1.visiting, v ∉ st1.visited := by
            intro v hv
            rcases List.mem_cons.mp hv with rfl | hv'
            · exact hm_nd
            · exact hdisj v hv'
          have hinv1 : Inv3 models st1 := hinv
          obtain ⟨hinv2, hgrow2, hkeep2⟩ := hfold.2 ⟨hinv1, hdisj1⟩
          have hm_n2 : m.name ∉ st2.visited :=
            hkeep2 m.name (List.mem_cons_self _ _)
          obtain ⟨hcorr2, hnd2, hsub2⟩ := hinv2
          refine ⟨⟨?_, ?_, ?_⟩, ?_, ?_⟩
          · show (st2.sorted ++ [m]).map SchemaModel.name = (m.name :: st2.visited).reverse
            rw [List.map_append, hcorr2, List.reverse_cons]
            rfl
          · exact List.nodup_cons.mpr ⟨hm_n2, hnd2⟩
          · intro s hs
            rcases List.mem_append.mp hs with hs' | hs'
            · exact hsub2 s hs'
            · rcases List.mem_singleton.mp hs' with rfl
              exact hm
          · intro n hn
            exact List.mem_cons_of_mem _ (hgrow2 n hn)
          · intro v hv
            intro hc
            rcases List.mem_cons.mp hc with rfl | hc'
            · exact hm_nv hv
            · exact hkeep2 v (List.mem_cons_of_mem _ hv) hc'

/-- Whenever `visit` is entered with at least one unit of fuel on a model that
is not on the in-progress stack, the model's name ends up `visited`. -/
theorem visitModel_adds (models : List SchemaModel) (fuel : Nat) (m : SchemaModel)
    (st : SortState) (hfuel : 1 ≤ fuel) (hnv : m.name ∉ st.visiting) :
    m.name ∈ (visitModel models fuel m st).visited := by
  cases fuel with
  | zero => omega
  | succ fuel =>
    rw [visitModel]
    have h1 : st.visiting.contains m.name = false := by
      simpa using hnv
    rw [h1]
    simp only [Bool.false_eq_true, if_false]
    by_cases h2 : st.visited.contains m.name
    · rw [if_pos h2]; simpa using h2
    · rw [if_neg h2]
      exact List.mem_cons_self _ _

/-- The driver loop of `sortModelsByDependencies` preserves the invariant,
keeps `visiting` empty, only grows `visited`, and marks every processed model. -/
theorem sortFold_ok (models : List SchemaModel) :
    ∀ (pre : List SchemaModel) (st : SortState), Inv3 models st → st.visiting = [] →
      (∀ m ∈ pre, m ∈ models) →
      Inv3 models (pre.foldl
        (fun st m =>
          if st.visited.contains m.name then st
          else visitModel models (models.length + 1) m st) st) ∧
      (pre.foldl
        (fun st m =>
          if st.visited.contains m.name then st
          else visitModel models (models.length + 1) m st) st).visiting = [] ∧
      (∀ n ∈ st.visited, n ∈ (pre.foldl
        (fun st m =>
          if st.visited.contains m.name then st
          else visitModel models (models.length + 1) m st) st).visited) ∧
      (∀ m ∈ pre, m.name ∈ (pre.foldl
        (fun st m =>
          if st.visited.contains m.name then st
          else visitModel models (models.length + 1) m st) st).visited) := by
  intro pre
  induction pre with
  | nil =>
    intro st hinv hvis _
    exact ⟨hinv, hvis, fun _ hn => hn, fun m hm => absurd hm (List.not_mem_nil m)⟩
  | cons m rest ih =>
    intro st hinv hvis hpre
    have hm : m ∈ models := hpre m (List.mem_cons_self _ _)
    by_cases hg : st.visited.contains m.name
    · have hstep :
          (if st.visited.contains m.name then st
           else visitModel models (models.length + 1) m st) = st := if_pos hg
      rw [List.foldl_cons, hstep]
      obtain ⟨h1, h2, h3, h4⟩ :=
        ih st hinv hvis (fun m' hm' => hpre m' (List.mem_cons_of_mem _ hm'))
      refine ⟨h1, h2, h3, ?_⟩
      intro m' hm'
      rcases List.mem_cons.mp hm' with rfl | hm''
      · exact h3 m'.name (by simpa using hg)
      · exact h4 m' hm''
    · have hstep :
          (if st.visited.contains m.name then st
           else visitModel models (models.length + 1) m st) =
          visitModel models (models.length + 1) m st := if_neg hg
      rw [List.foldl_cons, hstep]
      set st1 := visitModel models (models.length + 1) m st with hst1
      have hok : VisitOk models st st1 := visitModel_ok models _ m st hm
      have hdisj : ∀ v ∈ st.visiting, v ∉ st.visited := by
        intro v hv; rw [hvis] at hv; exact absurd hv (List.not_mem_nil v)
      obtain ⟨hinv1, hgrow1, _⟩ := hok.2 ⟨hinv, hdisj⟩
      have hvis1 : st1.visiting = [] := by rw [hok.1, hvis]
      have hmem1 : m.name ∈ st1.visited := by
        refine visitModel_adds models _ m st (by omega) ?_
        rw [hvis]; exact List.not_mem_nil _
      obtain ⟨h1, h2, h3, h4⟩ :=
        ih st1 hinv1 hvis1 (fun m' hm' => hpre m' (List.mem_cons_of_mem _ hm'))
      refine ⟨h1, h2, fun n hn => h3 n (hgrow1 n hn), ?_⟩
      intro m' hm'
      rcases List.mem_cons.mp hm' with rfl | hm''
      · exact h3 m'.name hmem1
      · exact h4 m' hm''

/-- When a list of models with pairwise distinct names shares a name between a
member of `l` and a member of `models`, the members coincide. -/
theorem name_inj_of_nodup {models : List SchemaModel}
    (hnd : (models.map SchemaModel.name).Nodup) :
    ∀ a ∈ models, ∀ b ∈ models, a.name = b.name → a = b :=
  fun _ ha _ hb h => List.inj_on_of_nodup_map hnd ha hb h

/-- Under pairwise-distinct model names, the orderer's output is a permutation
of its input (the shared permutation fact behind the ordering claims). -/
theorem sortModels_perm_of_nodup (models : List SchemaModel)
    (hnd : (models.map SchemaModel.name).Nodup) :
    (sortModelsByDependencies models).Perm models := by
  obtain ⟨⟨hcorr, hndv, hsub⟩, _, _, hvisfin⟩ :=
    sortFold_ok models models (⟨[], [], []⟩ : SortState)
      ⟨rfl, List.nodup_nil, fun s hs => absurd hs (List.not_mem_nil s)⟩
      rfl (fun _ hm => hm)
  set st' := models.foldl
    (fun st m =>
      if st.visited.contains m.name then st
      else visitModel models (models.length + 1) m st)
    (⟨[], [], []⟩ : SortState) with hst'
  have hout : sortModelsByDependencies models = st'.sorted := rfl
  have hnames : (st'.sorted.map SchemaModel.name).Nodup := by
    rw [hcorr]; exact (List.nodup_reverse).mpr hndv
  have hnodup_sorted : st'.sorted.Nodup := hnames.of_map
  have hnodup_models : models.Nodup := hnd.of_map
  have hsub2 : ∀ m ∈ models, m ∈ st'.sorted := by
    intro m hm
    have h1 : m.name ∈ st'.visited := hvisfin m hm
    have h2 : m.name ∈ st'.sorted.map SchemaModel.name := by
      rw [hcorr]; exact List.mem_reverse.mpr h1
    obtain ⟨s, hs, hsn⟩ := List.mem_map.mp h2
    have : s = m := name_inj_of_nodup hnd s (hsub s hs) m hm hsn
    exact this ▸ hs
  rw [hout]
  exact (List.subperm_of_subset hnodup_sorted (fun s hs => hsub s hs)).antisymm
    (List.subperm_of_subset hnodup_models (fun m hm => hsub2 m hm))

/-! ### The dependency graph and the ordering invariant -/

/-- The foreign-key dependency edge on model names, exactly as the traversal
follows it: model `a` has a foreign-key field whose (nonempty) `relationModel`
is `b`, and some model named `b` is present in the registry. -/
def depN (models : List SchemaModel) (a b : String) : Prop :=
  ∃ m ∈ models, m.name = a ∧ ∃ f ∈ m.fields, f.isForeignKey = true ∧
    f.relationModel = some b ∧ b ≠ "" ∧ ∃ r ∈ models, r.name = b

/-- The ordering invariant on an output list: every traversable foreign-key
dependency of the model at position `i` is the name of a model at some
position strictly before `i`. -/
def OrderedList (models : List SchemaModel) (l : List SchemaModel) : Prop :=
  ∀ i (hi : i < l.length), ∀ f ∈ l[i].fields, f.isForeignKey = true →
    ∀ b, f.relationModel = some b → b ≠ "" → (∃ r ∈ models, r.name = b) →
      ∃ j, ∃ (hj : j < l.length), j < i ∧ l[j].name = b

/-- A name present in the registry is found by `findModel`. -/
theorem findModel_isSome {models : List SchemaModel} {b : String}
    (h : ∃ r ∈ models, r.name = b) : ∃ dep, findModel models b = some dep := by
  obtain ⟨r, hr, hname⟩ := h
  unfold findModel
  cases hfind : models.find? (fun m => m.name == b) with
  | some dep => exact ⟨dep, rfl⟩
  | none =>
    exfalso
    have := List.find?_eq_none.mp hfind r hr
    simp [hname] at this

/-- Appending a model whose traversable dependencies already occur in the list
preserves the ordering invariant. -/
theorem orderedList_append {models l : List SchemaModel} {m : SchemaModel}
    (h : OrderedList models l)
    (hdeps : ∀ f ∈ m.fields, f.isForeignKey = true → ∀ b, f.relationModel = some b →
      b ≠ "" → (∃ r ∈ models, r.name = b) → b ∈ l.map SchemaModel.name) :
    OrderedList models (l ++ [m]) := by
  intro i hi f hf hfk b hb hbne hex
  have hlen : (l ++ [m]).length = l.length + 1 := by simp
  by_cases hlt : i < l.length
  · rw [List.getElem_append_left hlt] at hf
    obtain ⟨j, hj, hji, hname⟩ := h i hlt f hf hfk b hb hbne hex
    refine ⟨j, by omega, hji, ?_⟩
    rw [List.getElem_append_left hj]
    exact hname
  · have hic : i = l.length := by omega
    have hget : (l ++ [m])[i] = m := by
      subst hic; simp
    rw [hget] at hf
    have hbmem := hdeps f hf hfk b hb hbne hex
    obtain ⟨s, hs, hsname⟩ := List.mem_map.mp hbmem
    obtain ⟨j, hjl, hgetj⟩ := List.mem_iff_getElem.mp hs
    refine ⟨j, by omega, by omega, ?_⟩
    rw [List.getElem_append_left hjl, hgetj]
    exact hsname

/-- `visitFold` with `visit` instantiated to `visitModel` restores `visiting`. -/
theorem visitFold_visiting (models : List SchemaModel) (fuel : Nat)
    (fields : List SchemaField) (st : SortState) :
    (visitFold models (visitModel models fuel) fields st).visiting = st.visiting :=
  visitFold_rel models _ (fun a b => b.visiting = a.visiting) (fun _ => rfl)
    (fun _ _ _ hab hbc => hbc.trans hab)
    (fun m' st' hm' => (visitModel_ok models fuel m' st' hm').1) fields st

/-- A nodup list of names drawn from the registry's names is no longer than
the registry. -/
theorem visiting_length_le {models : List SchemaModel} {l : List String}
    (hnd : l.Nodup) (hsub : ∀ v ∈ l, v ∈ models.map SchemaModel.name) :
    l.length ≤ models.length := by
  have := (List.subperm_of_subset hnd (fun v hv => hsub v hv)).length_le
  simpa using this

/-- One field-loop step is the identity when the dependency lookup fails. -/
theorem visitStep_eq_of_findNone {models : List SchemaModel}
    {visit : SchemaModel → SortState → SortState} {f : SchemaField} {st : SortState}
    {r : String} (hrel : f.relationModel = some r) (hfind : findModel models r = none) :
    visitStep models visit f st = st := by
  unfold visitStep
  by_cases hg : (f.isForeignKey && truthyStr f.relationModel) = true
  · rw [if_pos hg, hrel]
    show (match findModel models r with
          | some dep => visit dep st
          | none => st) = st
    rw [hfind]
  · rw [if_neg hg]

/-- One field-loop step is the identity when the guard is false. -/
theorem visitStep_eq_of_guardFalse {models : List SchemaModel}
    {visit : SchemaModel → SortState → SortState} {f : SchemaField} {st : SortState}
    (h : (f.isForeignKey && truthyStr f.relationModel) = false) :
    visitStep models visit f st = st := by
  unfold visitStep
  rw [if_neg (by simp [h])]

/-- One field-loop step visits the dependency when the lookup succeeds. -/
theorem visitStep_eq_visit {models : List SchemaModel}
    {visit : SchemaModel → SortState → SortState} {f : SchemaField} {st : SortState}
    {r : String} {dep : SchemaModel}
    (hguard : (f.isForeignKey && truthyStr f.relationModel) = true)
    (hrel : f.relationModel = some r) (hfind : findModel models r = some dep) :
    visitStep models visit f st = visit dep st := by
  unfold visitStep
  rw [if_pos hguard, hrel]
  show (match findModel models r with
        | some dep => visit dep st
        | none => st) = visit dep st
  rw [hfind]

/-- The master lemma of the acyclic case: with enough fuel (accounted against
the registry size minus the in-progress stack), `visit` preserves the
invariants, explores every traversable dependency, and marks its argument
visited; the in-progress stack is always a chain of dependency ancestors, so
revisiting it would close a cycle, which acyclicity forbids. -/
theorem visitModel_topo (models : List SchemaModel)
    (hacyc : ∀ a, ¬ Relation.TransGen (depN models) a a) :
    ∀ fuel : Nat,
      (∀ (m : SchemaModel) (st : SortState), m ∈ models →
        Inv3 models st → OrderedList models st.sorted →
        st.visiting.Nodup →
        (∀ v ∈ st.visiting, v ∈ models.map SchemaModel.name) →
        (∀ v ∈ st.visiting, Relation.TransGen (depN models) v m.name) →
        (∀ v ∈ st.visiting, v ∉ st.visited) →
        models.length + 1 ≤ fuel + st.visiting.length →
        (Inv3 models (visitModel models fuel m st) ∧
          OrderedList models (visitModel models fuel m st).sorted) ∧
        (∀ n ∈ st.visited, n ∈ (visitModel models fuel m st).visited) ∧
        (∀ v ∈ st.visiting, v ∉ (visitModel models fuel m st).visited) ∧
        m.name ∈ (visitModel models fuel m st).visited) ∧
      (∀ (mc : SchemaModel) (fields : List SchemaField), ∀ st : SortState, mc ∈ models →
        (∀ f ∈ fields, f ∈ mc.fields) →
        Inv3 models st → OrderedList models st.sorted →
        st.visiting.Nodup →
        (∀ v ∈ st.visiting, v ∈ models.map SchemaModel.name) →
        (∀ v ∈ st.visiting, v = mc.name ∨ Relation.TransGen (depN models) v mc.name) →
        (∀ v ∈ st.visiting, v ∉ st.visited) →
        models.length + 1 ≤ fuel + st.visiting.length →
        (Inv3 models (visitFold models (visitModel models fuel) fields st) ∧
          OrderedList models (visitFold models (visitModel models fuel) fields st).sorted) ∧
        (∀ n ∈ st.visited,
          n ∈ (visitFold models (visitModel models fuel) fields st).visited) ∧
        (∀ v ∈ st.visiting,
          v ∉ (visitFold models (visitModel models fuel) fields st).visited) ∧
        (∀ f ∈ fields, f.isForeignKey = true → ∀ b, f.relationModel = some b → b ≠ "" →
          (∃ r ∈ models, r.name = b) →
          b ∈ (visitFold models (visitModel models fuel) fields st).visited)) := by
  intro fuel
  induction fuel with
  | zero =>
    constructor
    · intro m st _ _ _ hvnd hvnames _ _ hfuel
      exfalso
      have := visiting_length_le hvnd hvnames
      omega
    · intro mc fields st _ _ _ _ hvnd hvnames _ _ hfuel
      exfalso
      have := visiting_length_le hvnd hvnames
      omega
  | succ fuel ih =>
    have hVM : ∀ (m : SchemaModel) (st : SortState), m ∈ models →
        Inv3 models st → OrderedList models st.sorted →
        st.visiting.Nodup →
        (∀ v ∈ st.visiting, v ∈ models.map SchemaModel.name) →
        (∀ v ∈ st.visiting, Relation.TransGen (depN models) v m.name) →
        (∀ v ∈ st.visiting, v ∉ st.visited) →
        models.length + 1 ≤ (fuel + 1) + st.visiting.length →
        (Inv3 models (visitModel models (fuel + 1) m st) ∧
          OrderedList models (visitModel models (fuel + 1) m st).sorted) ∧
        (∀ n ∈ st.visited, n ∈ (visitModel models (fuel + 1) m st).visited) ∧
        (∀ v ∈ st.visiting, v ∉ (visitModel models (fuel + 1) m st).visited) ∧
        m.name ∈ (visitModel models (fuel + 1) m st).visited := by
      intro m st hm hinv hord hvnd hvnames hchain hdisj hfuel
      have hmnv : m.name ∉ st.visiting := fun hc => hacyc m.name (hchain m.name hc)
      rw [visitModel]
      have hg1 : st.visiting.contains m.name = false := by simpa using hmnv
      rw [hg1]
      simp only [Bool.false_eq_true, if_false]
      by_cases hg2 : st.visited.contains m.name
      · rw [if_pos hg2]
        exact ⟨⟨hinv, hord⟩, fun _ hn => hn, hdisj, by simpa using hg2⟩
      · rw [if_neg hg2]
        have hmnd : m.name ∉ st.visited := by simpa using hg2
        set st1 : SortState := { st with visiting := m.name :: st.visiting } with hst1
        have hlen1 : st1.visiting.length = st.visiting.length + 1 := rfl
        obtain ⟨⟨hinv2, hord2⟩, hgrow2, hkeep2, hdeps2⟩ :=
          ih.2 m m.fields st1 hm (fun _ hf => hf) hinv hord
            (List.nodup_cons.mpr ⟨hmnv, hvnd⟩)
            (by
              intro v hv
              rcases List.mem_cons.mp hv with rfl | hv'
              · exact List.mem_map.mpr ⟨m, hm, rfl⟩
              · exact hvnames v hv')
            (by
              intro v hv
              rcases List.mem_cons.mp hv with rfl | hv'
              · exact Or.inl rfl
              · exact Or.inr (hchain v hv'))
            (by
              intro v hv
              rcases List.mem_cons.mp hv with rfl | hv'
              · exact hmnd
              · exact hdisj v hv')
            (by rw [hlen1]; omega)
        set st2 := visitFold models (visitModel models fuel) m.fields st1 with hst2
        have hvis2 : st2.visiting = m.name :: st.visiting := by
          rw [hst2, visitFold_visiting]
        have hmn2 : m.name ∉ st2.visited := hkeep2 m.name (List.mem_cons_self _ _)
        obtain ⟨hcorr2, hnd2, hsub2⟩ := hinv2
        refine ⟨⟨⟨?_, ?_, ?_⟩, ?_⟩, ?_, ?_, ?_⟩
        · show (st2.sorted ++ [m]).map SchemaModel.name = (m.name :: st2.visited).reverse
          rw [List.map_append, hcorr2, List.reverse_cons]
          rfl
        · exact List.nodup_cons.mpr ⟨hmn2, hnd2⟩
        · intro s hs
          rcases List.mem_append.mp hs with hs' | hs'
          · exact hsub2 s hs'
          · rcases List.mem_singleton.mp hs' with rfl
            exact hm
        · show OrderedList models (st2.sorted ++ [m])
          refine orderedList_append hord2 ?_
          intro f hf hfk b hb hbne hex
          have hbv : b ∈ st2.visited := hdeps2 f hf hfk b hb hbne hex
          rw [hcorr2]
          exact List.mem_reverse.mpr hbv
        · intro n hn
          exact List.mem_cons_of_mem _ (hgrow2 n hn)
        · intro v hv hc
          rcases List.mem_cons.mp hc with rfl | hc'
          · exact hmnv hv
          · exact hkeep2 v (List.mem_cons_of_mem _ hv) hc'
        · exact List.mem_cons_self _ _
    refine ⟨hVM, ?_⟩
    intro mc fields
    induction fields with
    | nil =>
      intro st _ _ hinv hord _ _ _ hdisj _
      exact ⟨⟨hinv, hord⟩, fun _ hn => hn, hdisj,
        fun f hf => absurd hf (List.not_mem_nil f)⟩
    | cons f rest ihrest =>
      intro st hmc hsubf hinv hord hvnd hvnames hchain hdisj hfuel
      have hfmem : f ∈ mc.fields := hsubf f (List.mem_cons_self _ _)
      have hsubf' : ∀ f' ∈ rest, f' ∈ mc.fields :=
        fun f' hf' => hsubf f' (List.mem_cons_of_mem _ hf')
      show _ ∧ _ ∧ _ ∧ _
      rw [visitFold]
      by_cases hguard : (f.isForeignKey && truthyStr f.relationModel) = true
      · cases hrel : f.relationModel with
        | none =>
          exfalso
          rw [hrel] at hguard
          simp [truthyStr] at hguard
        | some r =>
          have hfk : f.isForeignKey = true := ((Bool.and_eq_true ..).mp hguard).1
          have hrne : r ≠ "" := by
            have := ((Bool.and_eq_true ..).mp hguard).2
            rw [hrel] at this
            simpa [truthyStr] using this
          cases hfind : findModel models r with
          | none =>
            rw [visitStep_eq_of_findNone hrel hfind]
            obtain ⟨hinvr, hgrowr, hkeepr, hdepsr⟩ :=
              ihrest st hmc hsubf' hinv hord hvnd hvnames hchain hdisj hfuel
            refine ⟨hinvr, hgrowr, hkeepr, ?_⟩
            intro f' hf' hfk' b hb hbne hex
            rcases List.mem_cons.mp hf' with rfl | hf''
            · exfalso
              rw [hrel] at hb
              obtain rfl : r = b := Option.some_injective _ hb
              obtain ⟨dep, hdep⟩ := findModel_isSome hex
              rw [hfind] at hdep
              exact Option.noConfusion hdep
            · exact hdepsr f' hf'' hfk' b hb hbne hex
          | some dep =>
            rw [visitStep_eq_visit hguard hrel hfind]
            obtain ⟨hdepmem, hdepname⟩ := findModel_sound hfind
            have hedge : depN models mc.name r :=
              ⟨mc, hmc, rfl, f, hfmem, hfk, hrel, hrne, dep, hdepmem, hdepname⟩
            obtain ⟨⟨hinv1, hord1⟩, hgrow1, hkeep1, hdepvis⟩ :=
              hVM dep st hdepmem hinv hord hvnd hvnames
                (by
                  intro v hv
                  rw [hdepname]
                  rcases hchain v hv with rfl | htg
                  · exact Relation.TransGen.single hedge
                  · exact htg.tail hedge)
                hdisj hfuel
            set st1 := visitModel models (fuel + 1) dep st with hst1
            have hvis1 : st1.visiting = st.visiting :=
              (visitModel_ok models (fuel + 1) dep st hdepmem).1
            obtain ⟨hinvr, hgrowr, hkeepr, hdepsr⟩ :=
              ihrest st1 hmc hsubf' hinv1 hord1
                (by rw [hvis1]; exact hvnd)
                (by rw [hvis1]; exact hvnames)
                (by rw [hvis1]; exact hchain)
                (by rw [hvis1]; exact hkeep1)
                (by rw [hvis1]; omega)
            refine ⟨hinvr, fun n hn => hgrowr n (hgrow1 n hn), ?_, ?_⟩
            · intro v hv
              refine hkeepr v ?_
              rw [hvis1]; exact hv
            · intro f' hf' hfk' b hb hbne hex
              rcases List.mem_cons.mp hf' with rfl | hf''
              · rw [hrel] at hb
                obtain rfl : r = b := Option.some_injective _ hb
                have : r ∈ st1.visited := hdepname ▸ hdepvis
                exact hgrowr r this
              · exact hdepsr f' hf'' hfk' b hb hbne hex
      · rw [visitStep_eq_of_guardFalse (by simpa using hguard)]
        obtain ⟨hinvr, hgrowr, hkeepr, hdepsr⟩ :=
          ihrest st hmc hsubf' hinv hord hvnd hvnames hchain hdisj hfuel
        refine ⟨hinvr, hgrowr, hkeepr, ?_⟩
        intro f' hf' hfk' b hb hbne hex
        rcases List.mem_cons.mp hf' with rfl | hf''
        · exfalso
          have : truthyStr f'.relationModel = true := by
            rw [hb]; simpa [truthyStr] using hbne
          rw [Bool.and_eq_true] at hguard
          exact hguard ⟨hfk', this⟩
        · exact hdepsr f' hf'' hfk' b hb hbne hex

/-- The driver loop preserves the ordering invariant on acyclic graphs. -/
theorem sortFoldO_ok (models : List SchemaModel)
    (hacyc : ∀ a, ¬ Relation.TransGen (depN models) a a) :
    ∀ (pre : List SchemaModel) (st : SortState),
      (∀ m ∈ pre, m ∈ models) →
      Inv3 models st → OrderedList models st.sorted → st.visiting = [] →
      Inv3 models (pre.foldl
        (fun st m =>
          if st.visited.contains m.name then st
          else visitModel models (models.length + 1) m st) st) ∧
      OrderedList models (pre.foldl
        (fun st m =>
          if st.visited.contains m.name then st
          else visitModel models (models.length + 1) m st) st).sorted ∧
      (pre.foldl
        (fun st m =>
          if st.visited.contains m.name then st
          else visitModel models (models.length + 1) m st) st).visiting = [] := by
  intro pre
  induction pre with
  | nil => exact fun st _ hinv hord hvis => ⟨hinv, hord, hvis⟩
  | cons m rest ih =>
    intro st hpre hinv hord hvis
    have hm : m ∈ models := hpre m (List.mem_cons_self _ _)
    rw [List.foldl_cons]
    by_cases hg : st.visited.contains m.name
    · rw [if_pos hg]
      exact ih st (fun m' hm' => hpre m' (List.mem_cons_of_mem _ hm')) hinv hord hvis
    · rw [if_neg hg]
      have hnil : ∀ v ∈ st.visiting, v ∉ st.visited := by
        intro v hv; rw [hvis] at hv; exact absurd hv (List.not_mem_nil v)
      have hnnames : ∀ v ∈ st.visiting, v ∈ models.map SchemaModel.name := by
        intro v hv; rw [hvis] at hv; exact absurd hv (List.not_mem_nil v)
      have hchain : ∀ v ∈ st.visiting, Relation.TransGen (depN models) v m.name := by
        intro v hv; rw [hvis] at hv; exact absurd hv (List.not_mem_nil v)
      obtain ⟨⟨hinv1, hord1⟩, _, _, _⟩ :=
        (visitModel_topo models hacyc (models.length + 1)).1 m st hm hinv hord
          (by rw [hvis]; exact List.nodup_nil) hnnames hchain hnil
          (by rw [hvis]; simp)
      have hvis1 :
          (visitModel models (models.length + 1) m st).visiting = [] := by
        rw [(visitModel_ok models (models.length + 1) m st hm).1, hvis]
      exact ih _ (fun m' hm' => hpre m' (List.mem_cons_of_mem _ hm')) hinv1 hord1 hvis1

/-- C1 (amended): for models with pairwise-distinct names and an acyclic
foreign-key dependency graph, the orderer returns a permutation of the input
in which every foreign-key dependency target (a distinct model with a nonempty
name present in the list) appears at a strictly smaller index than the
dependent model. -/
theorem sortModels_acyclic_ordering (models : List SchemaModel)
    (hnd : (models.map SchemaModel.name).Nodup)
    (hacyc : ∀ a, ¬ Relation.TransGen (depN models) a a) :
    (sortModelsByDependencies models).Perm models ∧
    ∀ m ∈ sortModelsByDependencies models, ∀ f ∈ m.fields, f.isForeignKey = true →
      ∀ r ∈ models, f.relationModel = some r.name → r.name ≠ "" → r.name ≠ m.name →
        ∃ i j, ∃ (hi : i < (sortModelsByDependencies models).length)
          (hj : j < (sortModelsByDependencies models).length),
          i < j ∧ (sortModelsByDependencies models)[i] = r ∧
            (sortModelsByDependencies models)[j] = m := by
  refine ⟨sortModels_perm_of_nodup models hnd, ?_⟩
  obtain ⟨⟨_, _, hsub⟩, hord, _⟩ :=
    sortFoldO_ok models hacyc models (⟨[], [], []⟩ : SortState) (fun _ hm => hm)
      ⟨rfl, List.nodup_nil, fun s hs => absurd hs (List.not_mem_nil s)⟩
      (fun i hi => absurd hi (by simp)) rfl
  have hord' : OrderedList models (sortModelsByDependencies models) := hord
  have hsub' : ∀ s ∈ sortModelsByDependencies models, s ∈ models := hsub
  intro m hm f hf hfk r hr hrel hrne hrm
  obtain ⟨j, hj, hgetj⟩ := List.mem_iff_getElem.mp hm
  have hordj := hord' j hj f (by rw [hgetj]; exact hf) hfk r.name
    hrel hrne ⟨r, hr, rfl⟩
  obtain ⟨i, hi, hij, hname⟩ := hordj
  have hmemi : (sortModelsByDependencies models)[i] ∈ models :=
    hsub' _ (List.getElem_mem hi)
  have : (sortModelsByDependencies models)[i] = r :=
    name_inj_of_nodup hnd _ hmemi r hr hname
  exact ⟨i, j, hi, hj, hij, this, hgetj⟩

/-- Concrete acyclic registry for the ordering witness: a `Post` model with a
foreign key to a `User` model, listed dependents-first. -/
def demoUser : SchemaModel :=
  { name := "User", fields := [{ name := "email", type := "string" }] }

def demoPost : SchemaModel :=
  { name := "Post",
    fields := [{ name := "authorId", type := "objectid", isForeignKey := true,
                 relationModel := some "User" }] }

def demoModels : List SchemaModel := [demoPost, demoUser]

/-- Every dependency edge in the demo registry goes from `Post` to `User`. -/
theorem demo_edge {a b : String} (h : depN demoModels a b) :
    a = "Post" ∧ b = "User" := by
  obtain ⟨m, hm, hma, f, hf, hfk, hrel, _, _⟩ := h
  rcases List.mem_cons.mp hm with rfl | hm'
  · constructor
    · rw [← hma]; rfl
    · simp only [demoPost, List.mem_singleton] at hf
      rw [hf] at hrel
      simpa using hrel.symm
  · rcases List.mem_cons.mp hm' with rfl | hm''
    · exfalso
      simp only [demoUser, List.mem_singleton] at hf
      rw [hf] at hfk
      exact Bool.noConfusion hfk
    · exact absurd hm'' (List.not_mem_nil m)

/-- The demo registry's dependency graph is acyclic. -/
theorem demo_acyclic : ∀ a, ¬ Relation.TransGen (depN demoModels) a a := by
  intro a h
  have hstart : ∀ x y : String, Relation.TransGen (depN demoModels) x y → x = "Post" := by
    intro x y hxy
    induction hxy with
    | single h1 => exact (demo_edge h1).1
    | tail _ _ ih => exact ih
  have hend : a = "User" := by
    cases h with
    | single h1 => exact (demo_edge h1).2
    | tail _ h1 => exact (demo_edge h1).2
  have hpost : a = "Post" := hstart a a h
  rw [hend] at hpost
  exact absurd hpost (by decide)

/-- C1 witness: on the concrete acyclic `Post → User` registry the hypotheses
hold and `User` is placed strictly before `Post`. -/
theorem sortModels_acyclic_ordering_witness :
    (demoModels.map SchemaModel.name).Nodup ∧
    ((sortModelsByDependencies demoModels).Perm demoModels ∧
      ∀ m ∈ sortModelsByDependencies demoModels, ∀ f ∈ m.fields,
        f.isForeignKey = true →
        ∀ r ∈ demoModels, f.relationModel = some r.name → r.name ≠ "" →
          r.name ≠ m.name →
          ∃ i j, ∃ (hi : i < (sortModelsByDependencies demoModels).length)
            (hj : j < (sortModelsByDependencies demoModels).length),
            i < j ∧ (sortModelsByDependencies demoModels)[i] = r ∧
              (sortModelsByDependencies demoModels)[j] = m) :=
  ⟨by decide, sortModels_acyclic_ordering demoModels (by decide) demo_acyclic⟩

/-- Two distinct models sharing the name `A`: the dependency graph is trivially
acyclic, yet the orderer emits only one of them. -/
def dupA1 : SchemaModel := { name := "A", fields := [] }

def dupA2 : SchemaModel :=
  { name := "A", fields := [{ name := "x", type := "string" }] }

/-- C1 counterexample: on the duplicate-name registry `[dupA1, dupA2]` the
dependency graph is acyclic (there is no foreign-key field at all), yet the
output is not a permutation of the input, refuting the claim as stated for
arbitrary input lists. -/
theorem sortModels_claim1_cex :
    (∀ a, ¬ Relation.TransGen (depN [dupA1, dupA2]) a a) ∧
    ¬ (sortModelsByDependencies [dupA1, dupA2]).Perm [dupA1, dupA2] := by
  constructor
  · have hedge : ∀ x y, ¬ depN [dupA1, dupA2] x y := by
      intro x y hxy
      obtain ⟨m, hm, _, f, hf, hfk, _⟩ := hxy
      rcases List.mem_cons.mp hm with rfl | hm'
      · exact absurd hf (by simp [dupA1])
      · rcases List.mem_cons.mp hm' with rfl | hm''
        · simp only [dupA2, List.mem_singleton] at hf
          rw [hf] at hfk
          exact Bool.noConfusion hfk
        · exact absurd hm'' (List.not_mem_nil m)
    intro a h
    cases h with
    | single h1 => exact hedge _ _ h1
    | tail _ h1 => exact hedge _ _ h1
  · intro h
    have hlen := h.length_eq
    have h1 : (sortModelsByDependencies [dupA1, dupA2]).length = 1 := rfl
    rw [h1] at hlen
    simp at hlen

/-- C3 (amended): for every input list of models with pairwise-distinct names,
including lists whose dependency graph contains cycles, the orderer's output
is a permutation of the input: each model exactly once, no omission, no
duplication (termination is inherent in the total embedding). -/
theorem sortModels_cycle_tolerant (models : List SchemaModel)
    (hnd : (models.map SchemaModel.name).Nodup) :
    (sortModelsByDependencies models).Perm models :=
  sortModels_perm_of_nodup models hnd

/-- A two-cycle `CycA → CycB → CycA` for the cycle-tolerance witness. -/
def cycA : SchemaModel :=
  { name := "CycA",
    fields := [{ name := "bId", type := "objectid", isForeignKey := true,
                 relationModel := some "CycB" }] }

def cycB : SchemaModel :=
  { name := "CycB",
    fields := [{ name := "aId", type := "objectid", isForeignKey := true,
                 relationModel := some "CycA" }] }

/-- C3 witness: on the concrete mutual cycle the hypothesis holds and the
output is a permutation of the input. -/
theorem sortModels_cycle_tolerant_witness :
    (([cycA, cycB].map SchemaModel.name).Nodup) ∧
    (sortModelsByDependencies [cycA, cycB]).Perm [cycA, cycB] :=
  ⟨by decide, sortModels_cycle_tolerant [cycA, cycB] (by decide)⟩

/-- Two distinct models sharing the name `B`, for the C3 counterexample. -/
def dupB1 : SchemaModel := { name := "B", fields := [] }

def dupB2 : SchemaModel :=
  { name := "B", fields := [{ name := "y", type := "string" }] }

/-- C3 counterexample: on the duplicate-name registry `[dupB1, dupB2]` the
output omits `dupB2` entirely and is not a permutation of the input, refuting
the claim as stated for arbitrary input lists. -/
theorem sortModels_claim3_cex :
    ¬ (sortModelsByDependencies [dupB1, dupB2]).Perm [dupB1, dupB2] := by
  intro h
  have hlen := h.length_eq
  have h1 : (sortModelsByDependencies [dupB1, dupB2]).length = 1 := rfl
  rw [h1] at hlen
  simp at hlen

/-! ## The seeder state, storage model, and randomness oracle -/

/-- A generated or stored record: a JavaScript object observed as key/value
pairs.  No key ever holds `undefined`: every assignment in the source is
guarded by a definedness check. -/
abbrev Record := List (String × Value)

/-- A storage-client operation, as recorded in the run's trace. -/
inductive StoreOp where
  | deleteManyOp (model : String)
  | insertManyOp (model : String) (recs : List Record)
  | saveOp (model : String) (rec : Record)
  | findRefsOp (model : String)
  | findInsertedOp (model : String) (count : Nat)

/-- The mutable state of a seeding run: the store's tables, the store's id
counter, the per-run `generatedData` map, the randomness tick, and the trace
of storage operations. -/
structure SeedSt where
  db : List (String × List Record)
  nextId : Nat
  generatedData : List (String × List Record)
  tick : Nat
  trace : List StoreOp

/-- The randomness oracle; each draw consumes one tick of the state. -/
structure Oracle where
  genString : Nat → String → Option FieldConfig → Value
  genNumber : Nat → String → Option FieldConfig → Value
  genDate : Nat → String → Option FieldConfig → Value
  nowDate : Nat → Nat
  genBool : Nat → Bool
  pick : Nat → Nat → Nat
  shuffle : Nat → List Record → List Record
  newOid : Nat → Nat

/-- The environment: the oracle plus failure injection per storage operation
(`some msg` makes that operation throw `msg`). -/
structure Env where
  oracle : Oracle
  failDelete : String → Option String := fun _ => none
  failInsertMany : String → List Record → Option String := fun _ _ => none
  failSave : String → Record → Option String := fun _ _ => none
  failFind : String → Option String := fun _ => none
  failFetch : String → Option String := fun _ => none

/-- The seeder object's immutable fields: the introspected registry, the
loaded storage-client bindings (by model name), and the configuration. -/
structure SeederCtx where
  models : List SchemaModel
  clients : List String
  config : SeederConfig

def tableOf (db : List (String × List Record)) (n : String) : List Record :=
  (db.lookup n).getD []

def setTable (db : List (String × List Record)) (n : String) (t : List Record) :
    List (String × List Record) :=
  if (db.lookup n).isSome then db.map (fun kv => if kv.1 == n then (n, t) else kv)
  else db ++ [(n, t)]

/-- `this.generatedData.get(name)` observed as a list (`undefined` and an
empty list are behaviourally identical at every use site). -/
def lookupGen (st : SeedSt) (n : String) : List Record :=
  (st.generatedData.lookup n).getD []

/-- `map.set(k, v)`. -/
def mapSet (m : List (String × List Record)) (k : String) (v : List Record) :
    List (String × List Record) :=
  if (m.lookup k).isSome then m.map (fun kv => if kv.1 == k then (k, v) else kv)
  else m ++ [(k, v)]

/-- `record[key] = value` on a JavaScript object: replace in place or append. -/
def setK (r : Record) (k : String) (v : Value) : Record :=
  if (r.lookup k).isSome then r.map (fun kv => if kv.1 == k then (k, v) else kv)
  else r ++ [(k, v)]

def bump (st : SeedSt) : SeedSt := { st with tick := st.tick + 1 }

/-- The store assigns a fresh `_id` on save/insert when the document lacks one. -/
def withId (r : Record) (i : Nat) : Record :=
  if (r.lookup "_id").isSome then r else ("_id", Value.oid i) :: r

/-- `refValue !== null && refValue !== undefined`, negated. -/
def isNullish : Option Value → Bool
  | none => true
  | some .null => true
  | some _ => false

/-! ## Field value synthesis (Mongoose variant) -/

/-- `EnumGenerator.generate` (mongooseParser.ts lines 743-751): a uniform pick
from `config.values` when that list is non-empty, `null` otherwise.  The field
name is accepted and ignored, as in the source. -/
def enumGeneratorGenerate (pick : Nat → Nat → Nat) (tick : Nat)
    (fieldName : String) (config : Option FieldConfig) : Value :=
  match config.bind (·.values) with
  | some vs =>
    if vs.length > 0 then (vs.get? (pick tick vs.length % vs.length)).getD .null
    else .null
  | none => .null

/-- `fieldConfig?.type || field.type` (JavaScript `||`: `""` falls through). -/
def effType (fieldConfig : Option FieldConfig) (field : SchemaField) : String :=
  match fieldConfig.bind (·.type) with
  | some t => if t == "" then field.type else t
  | none => field.type

/-- `_.random(lo, hi)`: a uniform integer between the two bounds. -/
def randBetween (env : Env) (st : SeedSt) (lo hi : Int) : Int × SeedSt :=
  let a := min lo hi
  let b := max lo hi
  let span := (b - a + 1).toNat
  (a + Int.ofNat (env.oracle.pick st.tick span % span), bump st)

/-- The element loop of the `array` case of `generateFieldValue`. -/
def arrayItems (env : Env) (fieldName : String) (fieldConfig : Option FieldConfig) :
    Nat → SeedSt → List Value × SeedSt
  | 0, st => ([], st)
  | k + 1, st =>
    let (v, st1) :=
      match fieldConfig.bind (·.values) with
      | some vs =>
        if vs.length > 0 then
          ((vs.get? (env.oracle.pick st.tick vs.length % vs.length)).getD .null, bump st)
        else (env.oracle.genString st.tick fieldName fieldConfig, bump st)
      | none => (env.oracle.genString st.tick fieldName fieldConfig, bump st)
    let (rest, st2) := arrayItems env fieldName fieldConfig k st1
    (v :: rest, st2)

/-- `generateFieldValue` of the Mongoose Seeder (part_003 lines 163-231).
`none` is JavaScript `undefined`.  The `!fieldConfig?.ignore` re-check guarding
the field default in the source is absorbed by the early `ignore` return. -/
def generateFieldValueM (env : Env) (field : SchemaField)
    (fieldConfig : Option FieldConfig) (st : SeedSt) : Option Value × SeedSt :=
  if optTrue (fieldConfig.bind (·.ignore)) then (none, st)
  else if field.name == "id" || field.name == "_id" then (none, st)
  else
    match field.defaultValue with
    | some .fn => (none, st)
    | some v => (some v, st)
    | none =>
      match fieldConfig.bind (·.defaultValue) with
      | some v => (some v, st)
      | none =>
        let ty := effType fieldConfig field
        if ty == "string" then
          (some (env.oracle.genString st.tick field.name fieldConfig), bump st)
        else if ty == "number" then
          (some (env.oracle.genNumber st.tick field.name fieldConfig), bump st)
        else if ty == "date" || ty == "datetime" then
          match env.oracle.genDate st.tick field.name fieldConfig with
          | .date d => (some (.date d), bump st)
          | _ => (some (.date (env.oracle.nowDate st.tick)), bump st)
        else if ty == "boolean" then
          (some (.bool (env.oracle.genBool st.tick)), bump st)
        else if ty == "enum" then
          let merged : FieldConfig :=
            { fieldConfig.getD {} with
                values := match field.enumValues with
                          | some l => some l
                          | none => fieldConfig.bind (·.values) }
          (some (enumGeneratorGenerate env.oracle.pick st.tick field.name (some merged)),
            bump st)
        else if ty == "objectid" then
          (some (.oid (env.oracle.newOid st.tick)), bump st)
        else if ty == "array" then
          let lo := (fieldConfig.bind (·.min)).getD 0
          let hi := (fieldConfig.bind (·.max)).getD 5
          let (len, st1) := randBetween env st lo hi
          let (items, st2) := arrayItems env field.name fieldConfig len.toNat st1
          (some (.list items), st2)
        else if ty == "json" then
          match fieldConfig.bind (·.defaultValue) with
          | some v => if truthy v then (some v, st) else (some (.obj []), st)
          | none => (some (.obj []), st)
        else (some (env.oracle.genString st.tick field.name fieldConfig), bump st)

/-- `shouldSkipField` of the Mongoose Seeder (part_003 lines 264-274). -/
def shouldSkipFieldM (field : SchemaField) (config : ModelConfig) : Bool :=
  if field.name == "id" || field.name == "_id" then true
  else if optTrue (((config.fields.getD []).lookup field.name).bind (·.ignore)) then true
  else false

/-! ## Reference resolution (Mongoose variant) -/

/-- `resolveReference` of the Mongoose Seeder (part_003 lines 233-262): prefer
a truthy `_id` sampled from the generated records; otherwise fetch up to 100
documents of the related model from the store (errors caught) and sample one;
otherwise `null`. -/
def resolveReferenceM (env : Env) (ctx : SeederCtx) (field : SchemaField)
    (st : SeedSt) : Option Value × SeedSt :=
  match field.relationModel with
  | none => (none, st)
  | some r =>
    if r == "" then (none, st)
    else
      let relatedData := lookupGen st r
      let (hit, st1) :=
        if relatedData.length > 0 then
          let idx := env.oracle.pick st.tick relatedData.length % relatedData.length
          let hit :=
            match relatedData.get? idx with
            | some rec =>
              match rec.lookup "_id" with
              | some v => if truthy v then some v else none
              | none => none
            | none => none
          (hit, bump st)
        else (none, st)
      match hit with
      | some v => (some v, st1)
      | none =>
        if ctx.clients.contains r then
          let st2 := { st1 with trace := st1.trace ++ [.findRefsOp r] }
          match env.failFind r with
          | some _ => (none, st2)
          | none =>
            let records := (tableOf st2.db r).take 100
            if records.length > 0 then
              let idx := env.oracle.pick st2.tick records.length % records.length
              match records.get? idx with
              | some rec => (rec.lookup "_id", bump st2)
              | none => (none, bump st2)
            else (none, st2)
        else (none, st1)

/-- The many-to-many loop of `generateModelData`: repeatedly resolve and keep
the truthy results. -/
def collectRefs (env : Env) (ctx : SeederCtx) (field : SchemaField) :
    Nat → SeedSt → List Value × SeedSt
  | 0, st => ([], st)
  | k + 1, st =>
    let (r, st1) := resolveReferenceM env ctx field st
    let (rest, st2) := collectRefs env ctx field k st1
    match r with
    | some v => if truthy v then (v :: rest, st2) else (rest, st2)
    | none => (rest, st2)

/-- The per-field loop of `generateModelData` (Mongoose variant, part_003
lines 109-158). -/
def genFieldsM (env : Env) (ctx : SeederCtx) (model : SchemaModel)
    (config : ModelConfig) :
    List SchemaField → Record → SeedSt → Record × SeedSt
  | [], record, st => (record, st)
  | f :: rest, record, st =>
    if shouldSkipFieldM f config then
      genFieldsM env ctx model config rest record st
    else
      let fieldConfig := (config.fields.getD []).lookup f.name
      if f.isForeignKey && truthyStr f.relationModel then
        let (refValue, st1) := resolveReferenceM env ctx f st
        if isNullish refValue then
          genFieldsM env ctx model config rest record st1
        else
          let rv := refValue.getD .null
          match model.relations.find? (fun rel => rel.name == f.name) with
          | some rel =>
            if rel.type == "manyToMany" then
              let relCfg := (config.relations.getD []).lookup f.name
              let lo := (relCfg.bind (·.min)).getD 0
              let hi := (relCfg.bind (·.max)).getD 3
              let (cnt, st2) := randBetween env st1 lo hi
              let (refs, st3) := collectRefs env ctx f cnt.toNat st2
              genFieldsM env ctx model config rest (setK record f.name (.list refs)) st3
            else
              genFieldsM env ctx model config rest (setK record f.name rv) st1
          | none =>
            genFieldsM env ctx model config rest (setK record f.name rv) st1
      else
        let (v, st1) := generateFieldValueM env f fieldConfig st
        match v with
        | some v' => genFieldsM env ctx model config rest (setK record f.name v') st1
        | none => genFieldsM env ctx model config rest record st1

/-- `generateModelData` of the Mongoose Seeder: `count` records in order. -/
def generateModelDataM (env : Env) (ctx : SeederCtx) (model : SchemaModel)
    (config : ModelConfig) : Nat → SeedSt → List Record × SeedSt
  | 0, st => ([], st)
  | k + 1, st =>
    let (record, st1) := genFieldsM env ctx model config model.fields [] st
    let (rest, st2) := generateModelDataM env ctx model config k st1
    (record :: rest, st2)

/-! ## Insertion and the seed operation (Mongoose variant) -/

/-- The undefined-stripping of `insertData`: a provable no-op in the embedding
(record values are only ever assigned defined values), kept as an explicit
map for correspondence with the source. -/
def cleanRecord (r : Record) : Record := r

def cleanData (data : List Record) : List Record := data.map cleanRecord

/-- `deleteMany({})` through the storage client. -/
def deleteManyM (env : Env) (n : String) (st : SeedSt) :
    Except (String × SeedSt) SeedSt :=
  let st' := { st with trace := st.trace ++ [.deleteManyOp n] }
  match env.failDelete n with
  | some msg => .error (msg, st')
  | none => .ok { st' with db := setTable st'.db n [] }

/-- One `new Model(record); doc.save()` call. -/
def saveOneM (env : Env) (n : String) (r : Record) (st : SeedSt) :
    Except (String × SeedSt) SeedSt :=
  let st' := { st with trace := st.trace ++ [.saveOp n r] }
  match env.failSave n r with
  | some msg => .error (msg, st')
  | none =>
    .ok { st' with
            db := setTable st'.db n (tableOf st'.db n ++ [withId r st'.nextId])
            nextId := st'.nextId + 1 }

/-- The randomized one-at-a-time insertion loop of `insertData`. -/
def insertLoopM (env : Env) (n : String) :
    List Record → SeedSt → Except (String × SeedSt) (Nat × SeedSt)
  | [], st => .ok (0, st)
  | r :: rest, st =>
    match saveOneM env n r st with
    | .error e => .error e
    | .ok st1 =>
      match insertLoopM env n rest st1 with
      | .error e => .error e
      | .ok (k, st2) => .ok (k + 1, st2)

/-- The `insertMany` path: the store assigns ids and appends all documents. -/
def insertManyRecords (recs : List Record) (start : Nat) : List Record × Nat :=
  match recs with
  | [] => ([], start)
  | r :: rest =>
    let (rs, n) := insertManyRecords rest (start + 1)
    (withId r start :: rs, n)

/-- `insertData` of the Mongoose Seeder (part_003 lines 276-304): a single
batch `insertMany` by default, or one `save` per record in shuffled order when
the global configuration requests randomization. -/
def insertDataM (env : Env) (ctx : SeederCtx) (n : String) (data : List Record)
    (st : SeedSt) : Except (String × SeedSt) (Nat × SeedSt) :=
  let cd := cleanData data
  if optTrue (ctx.config.global.bind (·.randomize)) then
    let shuffled := env.oracle.shuffle st.tick cd
    insertLoopM env n shuffled (bump st)
  else
    let st' := { st with trace := st.trace ++ [.insertManyOp n cd] }
    match env.failInsertMany n cd with
    | some msg => .error (msg, st')
    | none =>
      let (rs, next) := insertManyRecords cd st'.nextId
      .ok (cd.length,
        { st' with db := setTable st'.db n (tableOf st'.db n ++ rs), nextId := next })

/-- `fetchInsertedRecords`: the newest `count` documents (store ids are
monotone in the embedding, so id-descending order is reverse insertion
order); errors are caught and yield `[]`. -/
def fetchInsertedRecordsM (env : Env) (n : String) (count : Nat) (st : SeedSt) :
    List Record × SeedSt :=
  let st' := { st with trace := st.trace ++ [.findInsertedOp n count] }
  match env.failFetch n with
  | some _ => ([], st')
  | none => ((tableOf st'.db n).reverse.take count, st')

/-- The body of `seed` (Mongoose variant, part_003 lines 50-100) inside the
`try`: an `.error` is what the source throws, carrying the state mutated so
far. -/
def seedCoreM (env : Env) (ctx : SeederCtx) (modelName : String) (count : Nat)
    (opts : Option ModelConfig) (st : SeedSt) :
    Except (String × SeedSt) (SeedResult × SeedSt) :=
  match ctx.models.find? (fun m => m.name == modelName) with
  | none => .error (s!"Model {modelName} not found in schema", st)
  | some model =>
    if ctx.clients.contains modelName then
      let mc := mergeOpts (getModelConfig ctx.config modelName) opts
      let resetStep : Except (String × SeedSt) SeedSt :=
        if optTrue mc.reset || optTrue (ctx.config.global.bind (·.reset)) then
          deleteManyM env modelName st
        else .ok st
      match resetStep with
      | .error e => .error e
      | .ok st1 =>
        let (data, st2) := generateModelDataM env ctx model mc count st1
        match insertDataM env ctx modelName data st2 with
        | .error e => .error e
        | .ok (cnt, st3) =>
          let (inserted, st4) := fetchInsertedRecordsM env modelName cnt st3
          let st5 :=
            { st4 with generatedData := mapSet st4.generatedData modelName inserted }
          .ok ({ model := modelName, count := cnt, success := true }, st5)
    else .error (s!"Mongoose model {modelName} not loaded", st)

/-- `seed` of the Mongoose Seeder: the `try/catch` wrapper, total. -/
def seedM (env : Env) (ctx : SeederCtx) (modelName : String) (count : Nat)
    (opts : Option ModelConfig) (st : SeedSt) : SeedResult × SeedSt :=
  match seedCoreM env ctx modelName count opts st with
  | .ok r => r
  | .error (msg, st') =>
    ({ model := modelName, count := 0, success := false, error := some msg }, st')

/-- `modelConfig.count || 10` (JavaScript `||`: zero falls through to 10). -/
def countOrTen (o : Option Nat) : Nat :=
  match o with
  | some n => if n = 0 then 10 else n
  | none => 10

/-- The loop of `seedAll`: one `seed` call per ordered model, one result each. -/
def seedAllLoop (env : Env) (ctx : SeederCtx) :
    List SchemaModel → SeedSt → List SeedResult × SeedSt
  | [], st => ([], st)
  | m :: rest, st =>
    let mc := getModelConfig ctx.config m.name
    let (r, st1) := seedM env ctx m.name (countOrTen mc.count) (some mc) st
    let (rs, st2) := seedAllLoop env ctx rest st1
    (r :: rs, st2)

/-- `seedAll` of the Mongoose Seeder (part_003 lines 316-329). -/
def seedAllM (env : Env) (ctx : SeederCtx) (st : SeedSt) :
    List SeedResult × SeedSt :=
  seedAllLoop env ctx (sortModelsByDependencies ctx.models) st

/-! ## The Prisma variant of the seeder (part_004) -/

/-- `s.charAt(0).toLowerCase() + s.slice(1)`. -/
def lowerFirst (s : String) : String :=
  match s.toList with
  | [] => s
  | c :: rest => String.mk (c.toLower :: rest)

/-- `s.charAt(0).toUpperCase() + s.slice(1)`. -/
def capFirst (s : String) : String :=
  match s.toList with
  | [] => s
  | c :: rest => String.mk (c.toUpper :: rest)

/-- `s.replace(/Id$/, "")`. -/
def stripIdSuffix (s : String) : String :=
  if s.endsWith "Id" then s.dropRight 2 else s

/-- Character-list prefix test. -/
def listStartsWith : List Char → List Char → Bool
  | [], _ => true
  | _ :: _, [] => false
  | p :: ps, c :: cs => p == c && listStartsWith ps cs

/-- Character-list substring test. -/
def listContainsSub (pat : List Char) : List Char → Bool
  | [] => listStartsWith pat []
  | c :: cs => listStartsWith pat (c :: cs) || listContainsSub pat cs

/-- JavaScript `s.includes(pat)`. -/
def containsSub (s pat : String) : Bool := listContainsSub pat.toList s.toList

/-- The Prisma variant's auto-generated-default check: a string default
mentioning `now()`, `uuid()` or `autoincrement()`. -/
def isAutoDefault : Value → Bool
  | .str s =>
    containsSub s "now()" || containsSub s "uuid()" || containsSub s "autoincrement()"
  | _ => false

/-- `generateFieldValue` of the Prisma Seeder (part_004 lines 150-207).  The
`created/updated` date block of the source has an empty body and is omitted. -/
def generateFieldValueP (env : Env) (field : SchemaField)
    (fieldConfig : Option FieldConfig) (st : SeedSt) : Option Value × SeedSt :=
  if optTrue (fieldConfig.bind (·.ignore)) then (none, st)
  else if field.isPrimaryKey && field.type == "number" then (none, st)
  else
    match field.defaultValue with
    | some v =>
      if isAutoDefault v then (none, st) else (some v, st)
    | none =>
      match fieldConfig.bind (·.defaultValue) with
      | some v => (some v, st)
      | none =>
        let ty := effType fieldConfig field
        if ty == "string" then
          (some (env.oracle.genString st.tick field.name fieldConfig), bump st)
        else if ty == "number" then
          (some (env.oracle.genNumber st.tick field.name fieldConfig), bump st)
        else if ty == "date" || ty == "datetime" then
          match env.oracle.genDate st.tick field.name fieldConfig with
          | .date d => (some (.date d), bump st)
          | _ => (some (.date (env.oracle.nowDate st.tick)), bump st)
        else if ty == "boolean" then
          (some (.bool (env.oracle.genBool st.tick)), bump st)
        else if ty == "enum" then
          let merged : FieldConfig :=
            { fieldConfig.getD {} with
                values := match field.enumValues with
                          | some l => some l
                          | none => fieldConfig.bind (·.values) }
          (some (enumGeneratorGenerate env.oracle.pick st.tick field.name (some merged)),
            bump st)
        else (some (env.oracle.genString st.tick field.name fieldConfig), bump st)

/-- `shouldSkipField` of the Prisma Seeder (part_004 lines 251-262): only
number-typed primary keys and ignored fields are skipped. -/
def shouldSkipFieldP (field : SchemaField) (config : ModelConfig) : Bool :=
  if field.isPrimaryKey && field.type == "number" then true
  else if optTrue (((config.fields.getD []).lookup field.name).bind (·.ignore)) then true
  else false

/-- `resolveForeignKey` of the Prisma Seeder (part_004 lines 210-248): like
the Mongoose resolver but keyed on `id` (or `relationField`), with the
client looked up under the camel-cased model name. -/
def resolveForeignKeyP (env : Env) (ctx : SeederCtx) (field : SchemaField)
    (st : SeedSt) : Option Value × SeedSt :=
  match field.relationModel with
  | none => (none, st)
  | some r =>
    if r == "" then (none, st)
    else
      let relatedData := lookupGen st r
      let (hit, st1) :=
        if relatedData.length > 0 then
          let idx := env.oracle.pick st.tick relatedData.length % relatedData.length
          let hit :=
            match relatedData.get? idx with
            | some rec =>
              match rec.lookup "id" with
              | some v => if truthy v then some v else none
              | none => none
            | none => none
          (hit, bump st)
        else (none, st)
      match hit with
      | some v => (some v, st1)
      | none =>
        if ctx.clients.contains (lowerFirst r) then
          let st2 := { st1 with trace := st1.trace ++ [.findRefsOp r] }
          match env.failFind r with
          | some _ => (none, st2)
          | none =>
            let key :=
              match field.relationField with
              | some s => if s == "" then "id" else s
              | none => "id"
            let records := (tableOf st2.db r).take 100
            if records.length > 0 then
              let idx := env.oracle.pick st2.tick records.length % records.length
              match records.get? idx with
              | some rec => (rec.lookup key, bump st2)
              | none => (none, bump st2)
            else (none, st2)
        else (none, st1)

/-- The per-field loop of `generateModelData` (Prisma variant, part_004 lines
102-144): foreign keys are written as `relation: {connect: {id}}` under the
field name with its `Id` suffix stripped. -/
def genFieldsP (env : Env) (ctx : SeederCtx) (model : SchemaModel)
    (config : ModelConfig) :
    List SchemaField → Record → SeedSt → Record × SeedSt
  | [], record, st => (record, st)
  | f :: rest, record, st =>
    if shouldSkipFieldP f config then
      genFieldsP env ctx model config rest record st
    else
      let fieldConfig := (config.fields.getD []).lookup f.name
      if f.isForeignKey then
        let relName : Option String :=
          match f.relationModel with
          | some s =>
            if s == "" then
              (if f.name.endsWith "Id" then some (capFirst (stripIdSuffix f.name))
               else none)
            else some s
          | none =>
            if f.name.endsWith "Id" then some (capFirst (stripIdSuffix f.name))
            else none
        match relName with
        | some rm =>
          let (fk, st1) := resolveForeignKeyP env ctx { f with relationModel := some rm } st
          if isNullish fk then genFieldsP env ctx model config rest record st1
          else
            genFieldsP env ctx model config rest
              (setK record (stripIdSuffix f.name)
                (.obj [("connect", .obj [("id", fk.getD .null)])])) st1
        | none => genFieldsP env ctx model config rest record st
      else
        let (v, st1) := generateFieldValueP env f fieldConfig st
        match v with
        | some v' => genFieldsP env ctx model config rest (setK record f.name v') st1
        | none => genFieldsP env ctx model config rest record st1

/-- `generateModelData` of the Prisma Seeder. -/
def generateModelDataP (env : Env) (ctx : SeederCtx) (model : SchemaModel)
    (config : ModelConfig) : Nat → SeedSt → List Record × SeedSt
  | 0, st => ([], st)
  | k + 1, st =>
    let (record, st1) := genFieldsP env ctx model config model.fields [] st
    let (rest, st2) := generateModelDataP env ctx model config k st1
    (record :: rest, st2)

/-- Prisma assigns an `id` on create when the data lacks one. -/
def withIdP (r : Record) (i : Nat) : Record :=
  if (r.lookup "id").isSome then r else ("id", Value.num (Int.ofNat i)) :: r

/-- One `modelClient.create({data: record})` call. -/
def createOneP (env : Env) (n : String) (r : Record) (st : SeedSt) :
    Except (String × SeedSt) SeedSt :=
  let st' := { st with trace := st.trace ++ [.saveOp n r] }
  match env.failSave n r with
  | some msg => .error (msg, st')
  | none =>
    .ok { st' with
            db := setTable st'.db n (tableOf st'.db n ++ [withIdP r st'.nextId])
            nextId := st'.nextId + 1 }

/-- The create-per-record loop of the Prisma `insertData`.  The source issues
these concurrently via `Promise.all` in the default mode and sequentially when
randomizing; both are modelled sequentially in list order (the per-record
operations and their count are identical, and no claim concerns their
interleaving). -/
def insertLoopCreateP (env : Env) (n : String) :
    List Record → SeedSt → Except (String × SeedSt) SeedSt
  | [], st => .ok st
  | r :: rest, st =>
    match createOneP env n r st with
    | .error e => .error e
    | .ok st1 => insertLoopCreateP env n rest st1

/-- `insertData` of the Prisma Seeder (part_004 lines 265-302): looks up the
camel-cased client (throwing when absent), resets on the global flag only,
then issues one `create` per cleaned record in both modes. -/
def insertDataP (env : Env) (ctx : SeederCtx) (modelName : String)
    (data : List Record) (st : SeedSt) : Except (String × SeedSt) (Nat × SeedSt) :=
  let camel := lowerFirst modelName
  if ctx.clients.contains camel then
    let resetStep : Except (String × SeedSt) SeedSt :=
      if optTrue (ctx.config.global.bind (·.reset)) then deleteManyM env modelName st
      else .ok st
    match resetStep with
    | .error e => .error e
    | .ok st1 =>
      let cd := cleanData data
      if optTrue (ctx.config.global.bind (·.randomize)) then
        match insertLoopCreateP env modelName cd st1 with
        | .error e => .error e
        | .ok st2 => .ok (cd.length, st2)
      else
        match insertLoopCreateP env modelName cd st1 with
        | .error e => .error e
        | .ok st2 => .ok (cd.length, st2)
  else
    .error (s!"Prisma client not found for model {modelName} (tried: {camel}). Make sure the model exists in your schema and Prisma client is generated.", st)

/-- The body of `seed` (Prisma variant, part_004 lines 53-92) inside the
`try`; the generated (pre-insert) data, which carries no store ids, is what is
recorded in `generatedData`. -/
def seedCoreP (env : Env) (ctx : SeederCtx) (modelName : String) (count : Nat)
    (opts : Option ModelConfig) (st : SeedSt) :
    Except (String × SeedSt) (SeedResult × SeedSt) :=
  match ctx.models.find? (fun m => m.name == modelName) with
  | none => .error (s!"Model {modelName} not found in schema", st)
  | some model =>
    let mc := mergeOpts (getModelConfig ctx.config modelName) opts
    let (data, st1) := generateModelDataP env ctx model mc count st
    match insertDataP env ctx modelName data st1 with
    | .error e => .error e
    | .ok (cnt, st2) =>
      let st3 := { st2 with generatedData := mapSet st2.generatedData modelName data }
      .ok ({ model := modelName, count := cnt, success := true }, st3)

/-- `seed` of the Prisma Seeder: the `try/catch` wrapper, total. -/
def seedP (env : Env) (ctx : SeederCtx) (modelName : String) (count : Nat)
    (opts : Option ModelConfig) (st : SeedSt) : SeedResult × SeedSt :=
  match seedCoreP env ctx modelName count opts st with
  | .ok r => r
  | .error (msg, st') =>
    ({ model := modelName, count := 0, success := false, error := some msg }, st')

/-- The loop of the Prisma `seedAll`. -/
def seedAllLoopP (env : Env) (ctx : SeederCtx) :
    List SchemaModel → SeedSt → List SeedResult × SeedSt
  | [], st => ([], st)
  | m :: rest, st =>
    let mc := getModelConfig ctx.config m.name
    let (r, st1) := seedP env ctx m.name (countOrTen mc.count) (some mc) st
    let (rs, st2) := seedAllLoopP env ctx rest st1
    (r :: rs, st2)

/-- `seedAll` of the Prisma Seeder (part_004 lines 305-319). -/
def seedAllP (env : Env) (ctx : SeederCtx) (st : SeedSt) :
    List SeedResult × SeedSt :=
  seedAllLoopP env ctx (sortModelsByDependencies ctx.models) st

/-! ## Failure semantics of `seed` and `seedAll` -/

/-- Well-formedness of a `SeedResult` as the seed operation produces it:
a success carries no error; a failure carries a zero count and a message. -/
def seedResultWf (r : SeedResult) : Bool :=
  if r.success then r.error.isNone else (r.count == 0 && r.error.isSome)

/-- Every `.ok` the Mongoose seed body produces is a success result without an
error, named after the requested model. -/
theorem seedCoreM_shape (env : Env) (ctx : SeederCtx) (n : String) (c : Nat)
    (o : Option ModelConfig) (st : SeedSt) :
    (∃ msg stE, seedCoreM env ctx n c o st = .error (msg, stE)) ∨
    (∃ cnt stO, seedCoreM env ctx n c o st =
      .ok ({ model := n, count := cnt, success := true, error := none }, stO)) := by
  unfold seedCoreM
  dsimp only
  repeat' split
  all_goals first
    | exact Or.inl ⟨_, _, rfl⟩
    | exact Or.inr ⟨_, _, rfl⟩

theorem seedCoreM_ok {env : Env} {ctx : SeederCtx} {n : String} {c : Nat}
    {o : Option ModelConfig} {st : SeedSt} {r : SeedResult} {st' : SeedSt}
    (h : seedCoreM env ctx n c o st = .ok (r, st')) :
    r.success = true ∧ r.error = none ∧ r.model = n := by
  rcases seedCoreM_shape env ctx n c o st with ⟨msg, stE, heq⟩ | ⟨cnt, stO, heq⟩
  · rw [heq] at h
    exact absurd h (by simp)
  · rw [heq] at h
    simp only [Except.ok.injEq, Prod.mk.injEq] at h
    obtain ⟨h1, _⟩ := h
    rw [← h1]
    exact ⟨rfl, rfl, rfl⟩

/-- Every `.ok` the Prisma seed body produces is a success result without an
error, named after the requested model. -/
theorem seedCoreP_shape (env : Env) (ctx : SeederCtx) (n : String) (c : Nat)
    (o : Option ModelConfig) (st : SeedSt) :
    (∃ msg stE, seedCoreP env ctx n c o st = .error (msg, stE)) ∨
    (∃ cnt stO, seedCoreP env ctx n c o st =
      .ok ({ model := n, count := cnt, success := true, error := none }, stO)) := by
  unfold seedCoreP
  dsimp only
  repeat' split
  all_goals first
    | exact Or.inl ⟨_, _, rfl⟩
    | exact Or.inr ⟨_, _, rfl⟩

theorem seedCoreP_ok {env : Env} {ctx : SeederCtx} {n : String} {c : Nat}
    {o : Option ModelConfig} {st : SeedSt} {r : SeedResult} {st' : SeedSt}
    (h : seedCoreP env ctx n c o st = .ok (r, st')) :
    r.success = true ∧ r.error = none ∧ r.model = n := by
  rcases seedCoreP_shape env ctx n c o st with ⟨msg, stE, heq⟩ | ⟨cnt, stO, heq⟩
  · rw [heq] at h
    exact absurd h (by simp)
  · rw [heq] at h
    simp only [Except.ok.injEq, Prod.mk.injEq] at h
    obtain ⟨h1, _⟩ := h
    rw [← h1]
    exact ⟨rfl, rfl, rfl⟩

theorem seedM_wf_aux (env : Env) (ctx : SeederCtx) (n : String) (c : Nat)
    (o : Option ModelConfig) (st : SeedSt) :
    seedResultWf (seedM env ctx n c o st).1 = true ∧ (seedM env ctx n c o st).1.model = n := by
  unfold seedM
  cases h : seedCoreM env ctx n c o st with
  | error e =>
    obtain ⟨msg, st'⟩ := e
    simp [seedResultWf]
  | ok rs =>
    obtain ⟨r, st'⟩ := rs
    obtain ⟨h1, h2, h3⟩ := seedCoreM_ok h
    simp [seedResultWf, h1, h2, h3]

theorem seedP_wf_aux (env : Env) (ctx : SeederCtx) (n : String) (c : Nat)
    (o : Option ModelConfig) (st : SeedSt) :
    seedResultWf (seedP env ctx n c o st).1 = true ∧ (seedP env ctx n c o st).1.model = n := by
  unfold seedP
  cases h : seedCoreP env ctx n c o st with
  | error e =>
    obtain ⟨msg, st'⟩ := e
    simp [seedResultWf]
  | ok rs =>
    obtain ⟨r, st'⟩ := rs
    obtain ⟨h1, h2, h3⟩ := seedCoreP_ok h
    simp [seedResultWf, h1, h2, h3]

/-- A missing storage-client binding makes the Mongoose seed fail (it never
escapes as an exception). -/
theorem seedM_no_client {env : Env} {ctx : SeederCtx} {n : String} {c : Nat}
    {o : Option ModelConfig} {st : SeedSt}
    (h : ctx.clients.contains n = false) :
    (seedM env ctx n c o st).1.success = false := by
  unfold seedM seedCoreM
  cases hf : ctx.models.find? (fun m => m.name == n) with
  | none => simp
  | some model =>
    rw [h]
    simp

/-- C10: the single-model seed operation of either variant never throws to its
caller: it returns, for every input, a `SeedResult` named after the requested
model in which a failure carries `count = 0` and an error message, and a
success carries no error. -/
theorem seed_total_result_shape (env : Env) (ctx : SeederCtx) (n : String)
    (c : Nat) (o : Option ModelConfig) (st : SeedSt) :
    (seedResultWf (seedM env ctx n c o st).1 = true ∧
      (seedM env ctx n c o st).1.model = n) ∧
    (seedResultWf (seedP env ctx n c o st).1 = true ∧
      (seedP env ctx n c o st).1.model = n) :=
  ⟨seedM_wf_aux env ctx n c o st, seedP_wf_aux env ctx n c o st⟩

/-- The `seedAll` loop produces exactly one result per listed model, in
order, each well-formed, and failing whenever the model's binding is absent. -/
theorem seedAllLoop_models (env : Env) (ctx : SeederCtx) :
    ∀ (ms : List SchemaModel) (st : SeedSt),
      ((seedAllLoop env ctx ms st).1.map SeedResult.model) = ms.map SchemaModel.name ∧
      ∀ r ∈ (seedAllLoop env ctx ms st).1, seedResultWf r = true ∧
        (ctx.clients.contains r.model = false → r.success = false) := by
  intro ms
  induction ms with
  | nil => intro st; exact ⟨rfl, fun r hr => absurd hr (List.not_mem_nil r)⟩
  | cons m rest ih =>
    intro st
    set s1 := seedM env ctx m.name
      (countOrTen (getModelConfig ctx.config m.name).count)
      (some (getModelConfig ctx.config m.name)) st with hs1
    have hwf : seedResultWf s1.1 = true ∧ s1.1.model = m.name :=
      seedM_wf_aux env ctx m.name
        (countOrTen (getModelConfig ctx.config m.name).count)
        (some (getModelConfig ctx.config m.name)) st
    have hcons : (seedAllLoop env ctx (m :: rest) st).1 =
        s1.1 :: (seedAllLoop env ctx rest s1.2).1 := rfl
    constructor
    · rw [hcons, List.map_cons, List.map_cons, hwf.2, (ih _).1]
    · intro r hr
      rw [hcons] at hr
      rcases List.mem_cons.mp hr with rfl | hr'
      · refine ⟨hwf.1, fun hcl => ?_⟩
        rw [hwf.2] at hcl
        exact seedM_no_client hcl
      · exact (ih _).2 r hr'

/-- C2 (as stated, for a registry whose model names are pairwise distinct, as
the name-keyed loader guarantees): `seedAll` returns exactly one well-formed
`SeedResult` per registry model — the result names are a permutation of the
registry names — and a per-model failure (for instance a missing
storage-client binding) is recorded in that model's result without stopping
the run or escaping as an exception. -/
theorem seedAll_completeness (env : Env) (ctx : SeederCtx) (st : SeedSt)
    (hnd : (ctx.models.map SchemaModel.name).Nodup) :
    ((seedAllM env ctx st).1.map SeedResult.model).Perm
      (ctx.models.map SchemaModel.name) ∧
    (seedAllM env ctx st).1.length = ctx.models.length ∧
    (∀ r ∈ (seedAllM env ctx st).1, seedResultWf r = true) ∧
    (∀ r ∈ (seedAllM env ctx st).1,
      ctx.clients.contains r.model = false → r.success = false) := by
  obtain ⟨hmap, hwf⟩ :=
    seedAllLoop_models env ctx (sortModelsByDependencies ctx.models) st
  have hperm : ((seedAllM env ctx st).1.map SeedResult.model).Perm
      (ctx.models.map SchemaModel.name) := by
    show ((seedAllLoop env ctx (sortModelsByDependencies ctx.models) st).1.map
      SeedResult.model).Perm (ctx.models.map SchemaModel.name)
    rw [hmap]
    exact (sortModels_perm_of_nodup ctx.models hnd).map SchemaModel.name
  refine ⟨hperm, ?_, fun r hr => (hwf r hr).1, fun r hr => (hwf r hr).2⟩
  have := hperm.length_eq
  simpa using this

/-- Concrete environment and state for witnesses: a deterministic oracle
(first element picks, reversal as the shuffle) and no injected failures. -/
def oracle0 : Oracle :=
  { genString := fun _ n _ => .str n
    genNumber := fun _ _ _ => .num 7
    genDate := fun _ _ _ => .date 5
    nowDate := fun _ => 0
    genBool := fun _ => true
    pick := fun _ _ => 0
    shuffle := fun _ l => l.reverse
    newOid := fun _ => 99 }

def env0 : Env := { oracle := oracle0 }

def st0 : SeedSt :=
  { db := [], nextId := 1, generatedData := [], tick := 0, trace := [] }

/-- A registry with a missing binding for `Post`, exercising per-model failure
containment in the C2 witness. -/
def ctxMissing : SeederCtx :=
  { models := [demoPost, demoUser]
    clients := ["User"]
    config := { global := some { reset := some false, incremental := some false,
                                 randomize := some false }
                models := some [] } }

/-- C2 witness: on a concrete two-model registry with a missing `Post`
binding, the hypothesis holds and `seedAll` yields one result per model. -/
theorem seedAll_completeness_witness :
    (ctxMissing.models.map SchemaModel.name).Nodup ∧
    (((seedAllM env0 ctxMissing st0).1.map SeedResult.model).Perm
      (ctxMissing.models.map SchemaModel.name) ∧
    (seedAllM env0 ctxMissing st0).1.length = ctxMissing.models.length ∧
    (∀ r ∈ (seedAllM env0 ctxMissing st0).1, seedResultWf r = true) ∧
    (∀ r ∈ (seedAllM env0 ctxMissing st0).1,
      ctxMissing.clients.contains r.model = false → r.success = false)) :=
  ⟨by decide, seedAll_completeness env0 ctxMissing st0 (by decide)⟩

/-! ## Record-key lemmas -/

theorem lookup_cons_eqk {a k : String} (b : Value) (es : Record)
    (h : (a == k) = true) : ((k, b) :: es).lookup a = some b := by
  rw [List.lookup_cons, h]

theorem lookup_cons_nek {a k : String} (b : Value) (es : Record)
    (h : (a == k) = false) : ((k, b) :: es).lookup a = es.lookup a := by
  rw [List.lookup_cons, h]

theorem lookup_map_set (k : String) (v : Value) (q : String) :
    ∀ r : Record,
      (r.map (fun kv => if kv.1 == k then (k, v) else kv)).lookup q =
        if q == k then (r.lookup k).map (fun _ => v) else r.lookup q := by
  intro r
  induction r with
  | nil =>
    by_cases hq : (q == k) = true
    · rw [List.map_nil, if_pos hq]; rfl
    · rw [List.map_nil, if_neg hq]
  | cons kv rest ih =>
    obtain ⟨a, b⟩ := kv
    rw [List.map_cons]
    by_cases hak : (a == k) = true
    · have haeq : a = k := by simpa using hak
      have hh : (if (a, b).1 == k then (k, v) else (a, b)) = (k, v) := if_pos hak
      rw [hh]
      by_cases hqk : (q == k) = true
      · rw [if_pos hqk, lookup_cons_eqk v (rest.map _) hqk]
        have hka : (k == a) = true := by simp [haeq]
        rw [lookup_cons_eqk b rest hka]
        rfl
      · have hqk' : (q == k) = false := by simpa using hqk
        rw [if_neg hqk, lookup_cons_nek v _ hqk', ih, if_neg hqk]
        have hqa : (q == a) = false := by rw [haeq]; exact hqk'
        rw [lookup_cons_nek b rest hqa]
    · have hane : ¬ a = k := by simpa using hak
      have hh : (if (a, b).1 == k then (k, v) else (a, b)) = (a, b) := if_neg hak
      rw [hh]
      have hka : (k == a) = false := by
        simp only [beq_eq_false_iff_ne, ne_eq]
        exact fun hc => hane hc.symm
      by_cases hqa : (q == a) = true
      · have hqaeq : q = a := by simpa using hqa
        have hqk : (q == k) = false := by
          simp only [beq_eq_false_iff_ne, ne_eq]
          rw [hqaeq]
          exact hane
        rw [if_neg (by simp [hqk]), lookup_cons_eqk b (rest.map _) hqa,
          lookup_cons_eqk b rest hqa]
      · have hqa' : (q == a) = false := by simpa using hqa
        rw [lookup_cons_nek b _ hqa', ih]
        by_cases hqk : (q == k) = true
        · rw [if_pos hqk, if_pos hqk, lookup_cons_nek b rest hka]
        · rw [if_neg hqk, if_neg hqk, lookup_cons_nek b rest hqa']

theorem lookup_append_of_none {r s : Record} {q : String}
    (h : r.lookup q = none) : (r ++ s).lookup q = s.lookup q := by
  induction r with
  | nil => rfl
  | cons kv rest ih =>
    obtain ⟨a, b⟩ := kv
    by_cases hqa : (q == a) = true
    · rw [lookup_cons_eqk b rest hqa] at h
      exact absurd h (by simp)
    · have hqa' : (q == a) = false := by simpa using hqa
      rw [lookup_cons_nek b rest hqa'] at h
      rw [List.cons_append, lookup_cons_nek b (rest ++ s) hqa']
      exact ih h

theorem lookup_append_of_some {r s : Record} {q : String}
    (h : (r.lookup q).isSome) : (r ++ s).lookup q = r.lookup q := by
  induction r with
  | nil => simp at h
  | cons kv rest ih =>
    obtain ⟨a, b⟩ := kv
    by_cases hqa : (q == a) = true
    · rw [List.cons_append, lookup_cons_eqk b (rest ++ s) hqa, lookup_cons_eqk b rest hqa]
    · have hqa' : (q == a) = false := by simpa using hqa
      rw [lookup_cons_nek b rest hqa'] at h
      rw [List.cons_append, lookup_cons_nek b (rest ++ s) hqa', lookup_cons_nek b rest hqa']
      exact ih h

theorem setK_lookup_self (r : Record) (k : String) (v : Value) :
    (setK r k v).lookup k = some v := by
  unfold setK
  by_cases h : (r.lookup k).isSome
  · rw [if_pos h, lookup_map_set]
    obtain ⟨w, hw⟩ := Option.isSome_iff_exists.mp h
    simp [hw]
  · rw [if_neg h, lookup_append_of_none (Option.not_isSome_iff_eq_none.mp h)]
    exact lookup_cons_eqk v [] (by simp)

theorem setK_lookup_ne (r : Record) (k : String) (v : Value) (q : String)
    (hq : (q == k) = false) : (setK r k v).lookup q = r.lookup q := by
  unfold setK
  by_cases h : (r.lookup k).isSome
  · rw [if_pos h, lookup_map_set, hq]
    rfl
  · rw [if_neg h]
    by_cases h2 : (r.lookup q).isSome
    · exact lookup_append_of_some h2
    · rw [lookup_append_of_none (Option.not_isSome_iff_eq_none.mp h2),
        Option.not_isSome_iff_eq_none.mp h2, lookup_cons_nek v [] hq]
      rfl

theorem setK_lookup_isSome {r : Record} {k : String} {v : Value} {q : String}
    (h : ((setK r k v).lookup q).isSome) : q = k ∨ (r.lookup q).isSome := by
  by_cases hq : q = k
  · exact Or.inl hq
  · right
    rw [setK_lookup_ne r k v q (by simpa using hq)] at h
    exact h

/-! ## Configuration precedence (C5) -/

/-- C5 (amended): the call-time override wins over the config-file entry
key-wise in the shallow merge (its `fields` map, when present, replaces the
config-file one); but between the two defaults the model-declared field
default wins: a non-function (in the Prisma variant, non-auto) field
`defaultValue` is returned even when the `FieldConfig` also carries a
`defaultValue`, and the `FieldConfig` `defaultValue` is used only when the
field declares none. -/
theorem config_precedence (env : Env) (field : SchemaField) (cfg : FieldConfig)
    (base opts : ModelConfig) (st : SeedSt) :
    ((mergeOpts base (some opts)).fields = (opts.fields.orElse fun _ => base.fields)) ∧
    (optTrue cfg.ignore = false →
      (field.name == "id" || field.name == "_id") = false →
      (∀ v, field.defaultValue = some v → v ≠ .fn →
        (generateFieldValueM env field (some cfg) st).1 = some v) ∧
      (field.defaultValue = none → ∀ w, cfg.defaultValue = some w →
        (generateFieldValueM env field (some cfg) st).1 = some w)) ∧
    (optTrue cfg.ignore = false →
      (field.isPrimaryKey && field.type == "number") = false →
      (∀ v, field.defaultValue = some v → isAutoDefault v = false →
        (generateFieldValueP env field (some cfg) st).1 = some v) ∧
      (field.defaultValue = none → ∀ w, cfg.defaultValue = some w →
        (generateFieldValueP env field (some cfg) st).1 = some w)) := by
  refine ⟨rfl, fun hig hname => ⟨?_, ?_⟩, fun hig hpk => ⟨?_, ?_⟩⟩
  · intro v hdef hv
    unfold generateFieldValueM
    rw [if_neg (by simp [Option.some_bind, hig]), if_neg (by simp [hname]), hdef]
    cases v <;> first | rfl | exact absurd rfl hv
  · intro hdefn w hw
    unfold generateFieldValueM
    rw [if_neg (by simp [Option.some_bind, hig]), if_neg (by simp [hname]), hdefn]
    show (match (some cfg).bind (fun c => c.defaultValue) with
          | some v => (some v, st)
          | none => _).1 = some w
    rw [Option.some_bind, hw]
  · intro v hdef hauto
    unfold generateFieldValueP
    rw [if_neg (by simp [Option.some_bind, hig]), if_neg (by simp [hpk]), hdef]
    show ((if isAutoDefault v = true then ((none : Option Value), st)
           else (some v, st)) : Option Value × SeedSt).1 = some v
    rw [if_neg (by simp [hauto])]
  · intro hdefn w hw
    unfold generateFieldValueP
    rw [if_neg (by simp [Option.some_bind, hig]), if_neg (by simp [hpk]), hdefn]
    show (match (some cfg).bind (fun c => c.defaultValue) with
          | some v => (some v, st)
          | none => _).1 = some w
    rw [Option.some_bind, hw]

/-- The field and override used by the C5 counterexample and witness. -/
def fldW : SchemaField :=
  { name := "title", type := "string", defaultValue := some (.str "model-default") }

def cfgW : FieldConfig := { defaultValue := some (.str "config-default") }

/-- C5 counterexample: with both a model-declared field default and a
`FieldConfig` `defaultValue` present, the synthesizer returns the
model-declared default, not the `FieldConfig` one as the claim states. -/
theorem generateFieldValue_claim5_cex :
    cfgW.defaultValue = some (Value.str "config-default") ∧
    (generateFieldValueM env0 fldW (some cfgW) st0).1 = some (Value.str "model-default") ∧
    (generateFieldValueM env0 fldW (some cfgW) st0).1 ≠ some (Value.str "config-default") := by
  refine ⟨rfl, rfl, ?_⟩
  intro h
  have h1 : Value.str "model-default" = Value.str "config-default" := by
    have h0 : (generateFieldValueM env0 fldW (some cfgW) st0).1 =
        some (Value.str "model-default") := rfl
    rw [h0] at h
    injection h
  injection h1 with h2
  exact absurd h2 (by decide)

/-- C5 witness: the amended precedence applied at the concrete field and
override of the counterexample. -/
theorem config_precedence_witness :
    optTrue cfgW.ignore = false ∧
    (generateFieldValueM env0 fldW (some cfgW) st0).1 = some (Value.str "model-default") :=
  ⟨rfl, ((config_precedence env0 fldW cfgW {} {} st0).2.1 rfl rfl).1
    (Value.str "model-default") rfl (fun h => Value.noConfusion h)⟩

/-! ## Key provenance in generated records -/

/-- Fields whose names differ from `q` never write the key `q` (Mongoose). -/
theorem genFieldsM_preserve (env : Env) (ctx : SeederCtx) (model : SchemaModel)
    (mc : ModelConfig) (q : String) :
    ∀ (fields : List SchemaField) (record : Record) (st : SeedSt),
      (∀ g ∈ fields, (q == g.name) = false) →
      (genFieldsM env ctx model mc fields record st).1.lookup q = record.lookup q := by
  intro fields
  induction fields with
  | nil => intro record st _; rfl
  | cons g rest ih =>
    intro record st hq
    have hgq : (q == g.name) = false := hq g (List.mem_cons_self _ _)
    have hrest : ∀ g' ∈ rest, (q == g'.name) = false :=
      fun g' h => hq g' (List.mem_cons_of_mem _ h)
    show (genFieldsM env ctx model mc (g :: rest) record st).1.lookup q = record.lookup q
    rw [genFieldsM]
    dsimp only
    repeat' split
    all_goals first
      | exact ih _ _ hrest
      | rw [ih _ _ hrest, setK_lookup_ne _ _ _ _ hgq]

/-- Every key of a Mongoose-generated record comes from a non-skipped field of
that name. -/
theorem genFieldsM_origin (env : Env) (ctx : SeederCtx) (model : SchemaModel)
    (mc : ModelConfig) (q : String) :
    ∀ (fields : List SchemaField) (record : Record) (st : SeedSt),
      ((genFieldsM env ctx model mc fields record st).1.lookup q).isSome →
      (record.lookup q).isSome ∨
        ∃ g ∈ fields, shouldSkipFieldM g mc = false ∧ g.name = q := by
  intro fields
  induction fields with
  | nil => intro record st h; exact Or.inl h
  | cons g rest ih =>
    intro record st h
    rw [genFieldsM] at h
    dsimp only at h
    revert h
    split
    · intro h
      rcases ih _ _ h with h' | ⟨g', hg', hsk, hn⟩
      · exact Or.inl h'
      · exact Or.inr ⟨g', List.mem_cons_of_mem _ hg', hsk, hn⟩
    · next hns =>
      have hns' : shouldSkipFieldM g mc = false := by simpa using hns
      repeat' split
      all_goals intro h
      all_goals rcases ih _ _ h with h' | ⟨g', hg', hsk, hn⟩
      all_goals try exact Or.inr ⟨g', List.mem_cons_of_mem _ hg', hsk, hn⟩
      all_goals try exact Or.inl h'
      all_goals rcases setK_lookup_isSome h' with rfl | h2
      all_goals try exact Or.inr ⟨g, List.mem_cons_self _ _, hns', rfl⟩
      all_goals exact Or.inl h2

/-- Every key of a Prisma-generated record comes from a non-skipped field:
under its own name for ordinary fields, or with the `Id` suffix stripped for
foreign-key fields. -/
theorem genFieldsP_origin (env : Env) (ctx : SeederCtx) (model : SchemaModel)
    (mc : ModelConfig) (q : String) :
    ∀ (fields : List SchemaField) (record : Record) (st : SeedSt),
      ((genFieldsP env ctx model mc fields record st).1.lookup q).isSome →
      (record.lookup q).isSome ∨
        ∃ g ∈ fields, shouldSkipFieldP g mc = false ∧
          ((g.isForeignKey = false ∧ g.name = q) ∨
           (g.isForeignKey = true ∧ stripIdSuffix g.name = q)) := by
  intro fields
  induction fields with
  | nil => intro record st h; exact Or.inl h
  | cons g rest ih =>
    intro record st h
    rw [genFieldsP] at h
    dsimp only at h
    revert h
    split
    · intro h
      rcases ih _ _ h with h' | ⟨g', hg', hsk, hn⟩
      · exact Or.inl h'
      · exact Or.inr ⟨g', List.mem_cons_of_mem _ hg', hsk, hn⟩
    · next hns =>
      have hns' : shouldSkipFieldP g mc = false := by simpa using hns
      split
      · next hfk =>
        repeat' split
        all_goals intro h
        all_goals rcases ih _ _ h with h' | ⟨g', hg', hsk, hn⟩
        all_goals try exact Or.inr ⟨g', List.mem_cons_of_mem _ hg', hsk, hn⟩
        all_goals try exact Or.inl h'
        all_goals rcases setK_lookup_isSome h' with rfl | h2
        all_goals try (exact Or.inr ⟨g, List.mem_cons_self _ _, hns', Or.inr ⟨hfk, rfl⟩⟩)
        all_goals exact Or.inl h2
      · next hnfk =>
        have hfk' : g.isForeignKey = false := by simpa using hnfk
        repeat' split
        all_goals intro h
        all_goals rcases ih _ _ h with h' | ⟨g', hg', hsk, hn⟩
        all_goals try exact Or.inr ⟨g', List.mem_cons_of_mem _ hg', hsk, hn⟩
        all_goals try exact Or.inl h'
        all_goals rcases setK_lookup_isSome h' with rfl | h2
        all_goals try (exact Or.inr ⟨g, List.mem_cons_self _ _, hns', Or.inl ⟨hfk', rfl⟩⟩)
        all_goals exact Or.inl h2

/-- Lift of key provenance to the record loop (Mongoose). -/
theorem generateModelDataM_origin (env : Env) (ctx : SeederCtx)
    (model : SchemaModel) (mc : ModelConfig) :
    ∀ (count : Nat) (st : SeedSt) (r : Record) (q : String),
      r ∈ (generateModelDataM env ctx model mc count st).1 →
      (r.lookup q).isSome →
      ∃ g ∈ model.fields, shouldSkipFieldM g mc = false ∧ g.name = q := by
  intro count
  induction count with
  | zero => intro st r q hr _; exact absurd hr (List.not_mem_nil r)
  | succ k ih =>
    intro st r q hr hq
    have hcons : (generateModelDataM env ctx model mc (k + 1) st).1 =
        (genFieldsM env ctx model mc model.fields [] st).1 ::
          (generateModelDataM env ctx model mc k
            (genFieldsM env ctx model mc model.fields [] st).2).1 := rfl
    rw [hcons] at hr
    rcases List.mem_cons.mp hr with rfl | hr'
    · rcases genFieldsM_origin env ctx model mc q model.fields [] st hq with h | h
      · simp [List.lookup] at h
      · exact h
    · exact ih _ r q hr' hq

/-- Lift of key provenance to the record loop (Prisma). -/
theorem generateModelDataP_origin (env : Env) (ctx : SeederCtx)
    (model : SchemaModel) (mc : ModelConfig) :
    ∀ (count : Nat) (st : SeedSt) (r : Record) (q : String),
      r ∈ (generateModelDataP env ctx model mc count st).1 →
      (r.lookup q).isSome →
      ∃ g ∈ model.fields, shouldSkipFieldP g mc = false ∧
        ((g.isForeignKey = false ∧ g.name = q) ∨
         (g.isForeignKey = true ∧ stripIdSuffix g.name = q)) := by
  intro count
  induction count with
  | zero => intro st r q hr _; exact absurd hr (List.not_mem_nil r)
  | succ k ih =>
    intro st r q hr hq
    have hcons : (generateModelDataP env ctx model mc (k + 1) st).1 =
        (genFieldsP env ctx model mc model.fields [] st).1 ::
          (generateModelDataP env ctx model mc k
            (genFieldsP env ctx model mc model.fields [] st).2).1 := rfl
    rw [hcons] at hr
    rcases List.mem_cons.mp hr with rfl | hr'
    · rcases genFieldsP_origin env ctx model mc q model.fields [] st hq with h | h
      · simp [List.lookup] at h
      · exact h
    · exact ih _ r q hr' hq

/-! ## Ignore and identifier key omission (C6) -/

/-- C6 (amended): every key of a generated record originates in a non-skipped
field.  In the Mongoose seeder, keys for fields named `id`/`_id` or ignored by
the configuration never appear.  In the Prisma seeder, keys originate either
in a non-skipped ordinary field of that name or in a foreign-key field whose
name with the `Id` suffix stripped matches; ignored fields (barring such a
foreign-key alias) and number-typed primary keys never contribute a key, but a
primary key of any other type (for instance a string `id`) is synthesized and
its key does appear, refuting the claim's "regardless of the field's declared
type". -/
theorem generated_keys_respect_skip (env : Env) (ctx : SeederCtx)
    (model : SchemaModel) (mc : ModelConfig) (count : Nat) (st : SeedSt)
    (q : String) :
    (∀ r ∈ (generateModelDataM env ctx model mc count st).1, (r.lookup q).isSome →
      ∃ g ∈ model.fields, shouldSkipFieldM g mc = false ∧ g.name = q) ∧
    ((q = "id" ∨ q = "_id" ∨
        optTrue (((mc.fields.getD []).lookup q).bind (·.ignore)) = true) →
      ∀ r ∈ (generateModelDataM env ctx model mc count st).1, r.lookup q = none) ∧
    (∀ r ∈ (generateModelDataP env ctx model mc count st).1, (r.lookup q).isSome →
      ∃ g ∈ model.fields, shouldSkipFieldP g mc = false ∧
        ((g.isForeignKey = false ∧ g.name = q) ∨
         (g.isForeignKey = true ∧ stripIdSuffix g.name = q))) ∧
    ((optTrue (((mc.fields.getD []).lookup q).bind (·.ignore)) = true ∨
        (∀ g ∈ model.fields, g.name = q → g.isPrimaryKey = true ∧ g.type = "number")) →
      (∀ g ∈ model.fields, g.isForeignKey = true → stripIdSuffix g.name ≠ q) →
      ∀ r ∈ (generateModelDataP env ctx model mc count st).1, r.lookup q = none) := by
  refine ⟨?_, ?_, ?_, ?_⟩
  · exact fun r hr hq => generateModelDataM_origin env ctx model mc count st r q hr hq
  · intro hcond r hr
    by_cases hq : (r.lookup q).isSome
    · exfalso
      obtain ⟨g, _, hsk, hn⟩ :=
        generateModelDataM_origin env ctx model mc count st r q hr hq
      unfold shouldSkipFieldM at hsk
      rw [hn] at hsk
      rcases hcond with rfl | rfl | hig
      · simp at hsk
      · simp at hsk
      · rw [hig] at hsk
        simp at hsk
    · exact Option.not_isSome_iff_eq_none.mp hq
  · exact fun r hr hq => generateModelDataP_origin env ctx model mc count st r q hr hq
  · intro hcond halias r hr
    by_cases hq : (r.lookup q).isSome
    · exfalso
      obtain ⟨g, hg, hsk, hcase⟩ :=
        generateModelDataP_origin env ctx model mc count st r q hr hq
      rcases hcase with ⟨_, hn⟩ | ⟨hfk, hn⟩
      · unfold shouldSkipFieldP at hsk
        rw [hn] at hsk
        rcases hcond with hig | hpk
        · rw [hig] at hsk
          simp at hsk
        · obtain ⟨h1, h2⟩ := hpk g hg hn
          rw [h1, h2] at hsk
          simp at hsk
      · exact halias g hg hfk hn
    · exact Option.not_isSome_iff_eq_none.mp hq

/-- A string-typed primary key, as the Prisma parser yields for a model
declaring `id String @id` with no default. -/
def pkStrField : SchemaField := { name := "id", type := "string", isPrimaryKey := true }

def pkStrModel : SchemaModel := { name := "Doc", fields := [pkStrField] }

def ctxEmpty : SeederCtx := { models := [], clients := [], config := {} }

/-- C6 counterexample: a field classified as a primary key but of string type
is synthesized by the Prisma seeder and its key appears in every generated
record, refuting "nor for a field classified as a primary-key/identifier
field, regardless of the field's declared type". -/
theorem generated_keys_claim6_cex :
    pkStrField.isPrimaryKey = true ∧ pkStrModel.fields = [pkStrField] ∧
    (generateModelDataP env0 ctxEmpty pkStrModel {} 1 st0).1 =
      [[("id", Value.str "id")]] :=
  ⟨rfl, rfl, rfl⟩

/-- The ignored-field setup of the C6 witness. -/
def modelW6 : SchemaModel :=
  { name := "W6", fields := [{ name := "secret", type := "string" }] }

def mcW6 : ModelConfig :=
  { fields := some [("secret", { ignore := some true })] }

/-- C6 witness: on the concrete ignored field the hypotheses hold and the key
is absent from the (sole, empty) generated record. -/
theorem generated_keys_respect_skip_witness :
    ([] : Record).lookup "secret" = none :=
  (generated_keys_respect_skip env0 ctxEmpty modelW6 mcW6 1 st0 "secret").2.1
    (Or.inr (Or.inr rfl)) []
    (by
      have h : (generateModelDataM env0 ctxEmpty modelW6 mcW6 1 st0).1 = [[]] := rfl
      rw [h]
      exact List.mem_singleton.mpr rfl)

/-! ## Enum synthesis (C9) -/

/-- Reduction of `generateFieldValue` to the `EnumGenerator` call on the
spread configuration, in the enum case. -/
theorem generateFieldValueM_enum_eq (env : Env) (field : SchemaField)
    (cfg : Option FieldConfig) (st : SeedSt)
    (hig : optTrue (cfg.bind (·.ignore)) = false)
    (hname : (field.name == "id" || field.name == "_id") = false)
    (hdef : field.defaultValue = none)
    (hcdef : cfg.bind (·.defaultValue) = none)
    (hty : effType cfg field = "enum") :
    (generateFieldValueM env field cfg st).1 =
      some (enumGeneratorGenerate env.oracle.pick st.tick field.name
        (some { cfg.getD {} with
            values := match field.enumValues with
                      | some l => some l
                      | none => cfg.bind (·.values) })) := by
  simp only [generateFieldValueM, hig, hname, hdef, hcdef, hty, Bool.false_eq_true, if_false]
  simp

/-- Without any enum values, the enum case yields the JavaScript `null` (not
`undefined`), at every state. -/
theorem generateFieldValueM_enum_null (env : Env) (field : SchemaField)
    (cfg : Option FieldConfig)
    (hig : optTrue (cfg.bind (·.ignore)) = false)
    (hname : (field.name == "id" || field.name == "_id") = false)
    (hdef : field.defaultValue = none)
    (hcdef : cfg.bind (·.defaultValue) = none)
    (hty : effType cfg field = "enum")
    (hvals : field.enumValues = some [] ∨
      (field.enumValues = none ∧ cfg.bind (·.values) = none)) :
    ∀ st : SeedSt, (generateFieldValueM env field cfg st).1 = some Value.null := by
  intro st
  rw [generateFieldValueM_enum_eq env field cfg st hig hname hdef hcdef hty]
  unfold enumGeneratorGenerate
  rcases hvals with h | ⟨h1, h2⟩
  · rw [h]
    simp [Option.some_bind]
  · rw [h1, h2]
    simp [Option.some_bind]

/-- In a field list with pairwise-distinct names, a field whose synthesis
always yields `null` leaves the key present with value `null` in the built
record. -/
theorem genFieldsM_enum_key (env : Env) (ctx : SeederCtx) (model : SchemaModel)
    (mc : ModelConfig) (f : SchemaField)
    (hskip : shouldSkipFieldM f mc = false)
    (hfk : (f.isForeignKey && truthyStr f.relationModel) = false)
    (hnull : ∀ stX : SeedSt,
      (generateFieldValueM env f ((mc.fields.getD []).lookup f.name) stX).1 =
        some Value.null) :
    ∀ (fields : List SchemaField) (record : Record) (st : SeedSt),
      (fields.map SchemaField.name).Nodup → f ∈ fields →
      (genFieldsM env ctx model mc fields record st).1.lookup f.name =
        some Value.null := by
  intro fields
  induction fields with
  | nil => intro record st _ hf; exact absurd hf (List.not_mem_nil f)
  | cons g rest ih =>
    intro record st hnd hf
    have hnd' : (rest.map SchemaField.name).Nodup := (List.nodup_cons.mp hnd).2
    by_cases hgf : g = f
    · subst hgf
      rw [genFieldsM]
      dsimp only
      rw [if_neg (by simp [hskip]), if_neg (by simp [hfk]), hnull st]
      show (genFieldsM env ctx model mc rest (setK record g.name Value.null)
        (generateFieldValueM env g ((mc.fields.getD []).lookup g.name) st).2).1.lookup
          g.name = some Value.null
      have hnames : ∀ g' ∈ rest, (g.name == g'.name) = false := by
        intro g' hg'
        have h1 : g.name ∉ rest.map SchemaField.name := (List.nodup_cons.mp hnd).1
        simp only [beq_eq_false_iff_ne, ne_eq]
        intro hc
        exact h1 (hc ▸ List.mem_map.mpr ⟨g', hg', rfl⟩)
      rw [genFieldsM_preserve env ctx model mc g.name rest _ _ hnames, setK_lookup_self]
    · have hf' : f ∈ rest := by
        rcases List.mem_cons.mp hf with h | hf'
        · exact absurd h.symm hgf
        · exact hf'
      rw [genFieldsM]
      dsimp only
      repeat' split
      all_goals exact ih _ _ hnd' hf'

/-- C9 (amended): for an enum field the values list handed to `EnumGenerator`
is `field.enumValues` whenever that key is present (JavaScript `||` treats
even an empty array as truthy), else the `FieldConfig`'s `values`; the
generator picks uniformly from a non-empty list, and yields `null` (not
`undefined`) otherwise — so when neither side provides values the field key is
present in the generated record with value `null` rather than omitted. -/
theorem enum_field_generation (env : Env) (ctx : SeederCtx) (field : SchemaField)
    (cfg : Option FieldConfig) (st : SeedSt)
    (hig : optTrue (cfg.bind (·.ignore)) = false)
    (hname : (field.name == "id" || field.name == "_id") = false)
    (hdef : field.defaultValue = none)
    (hcdef : cfg.bind (·.defaultValue) = none)
    (hty : effType cfg field = "enum") :
    (∀ l, field.enumValues = some l → 0 < l.length →
      ∃ x ∈ l, (generateFieldValueM env field cfg st).1 = some x) ∧
    (field.enumValues = none → ∀ l, cfg.bind (·.values) = some l → 0 < l.length →
      ∃ x ∈ l, (generateFieldValueM env field cfg st).1 = some x) ∧
    ((field.enumValues = some [] ∨
        (field.enumValues = none ∧ cfg.bind (·.values) = none)) →
      (generateFieldValueM env field cfg st).1 = some Value.null) ∧
    (∀ (model : SchemaModel) (mc : ModelConfig) (count : Nat) (stG : SeedSt),
      (model.fields.map SchemaField.name).Nodup → field ∈ model.fields →
      shouldSkipFieldM field mc = false →
      (field.isForeignKey && truthyStr field.relationModel) = false →
      (mc.fields.getD []).lookup field.name = cfg →
      (field.enumValues = some [] ∨
        (field.enumValues = none ∧ cfg.bind (·.values) = none)) →
      ∀ r ∈ (generateModelDataM env ctx model mc count stG).1,
        r.lookup field.name = some Value.null) := by
  refine ⟨?_, ?_, ?_, ?_⟩
  · intro l hl hlen
    rw [generateFieldValueM_enum_eq env field cfg st hig hname hdef hcdef hty]
    unfold enumGeneratorGenerate
    rw [hl]
    simp only [Option.some_bind]
    have hidx : env.oracle.pick st.tick l.length % l.length < l.length :=
      Nat.mod_lt _ hlen
    refine ⟨l[env.oracle.pick st.tick l.length % l.length], List.getElem_mem hidx, ?_⟩
    rw [if_pos hlen]
    rw [List.get?_eq_getElem?, List.getElem?_eq_getElem hidx]
    rfl
  · intro henum l hl hlen
    rw [generateFieldValueM_enum_eq env field cfg st hig hname hdef hcdef hty]
    unfold enumGeneratorGenerate
    rw [henum]
    simp only [Option.some_bind]
    rw [hl]
    have hidx : env.oracle.pick st.tick l.length % l.length < l.length :=
      Nat.mod_lt _ hlen
    refine ⟨l[env.oracle.pick st.tick l.length % l.length], List.getElem_mem hidx, ?_⟩
    show some (if l.length > 0 then
        (l.get? (env.oracle.pick st.tick l.length % l.length)).getD Value.null
      else Value.null) = _
    rw [if_pos hlen]
    rw [List.get?_eq_getElem?, List.getElem?_eq_getElem hidx]
    rfl
  · exact fun hvals =>
      generateFieldValueM_enum_null env field cfg hig hname hdef hcdef hty hvals st
  · intro model mc count stG hnd hmem hskip hfk hcfg hvals
    have hnull : ∀ stX : SeedSt,
        (generateFieldValueM env field ((mc.fields.getD []).lookup field.name) stX).1 =
          some Value.null := by
      rw [hcfg]
      exact generateFieldValueM_enum_null env field cfg hig hname hdef hcdef hty hvals
    induction count generalizing stG with
    | zero => intro r hr; exact absurd hr (List.not_mem_nil r)
    | succ k ihk =>
      intro r hr
      have hcons : (generateModelDataM env ctx model mc (k + 1) stG).1 =
          (genFieldsM env ctx model mc model.fields [] stG).1 ::
            (generateModelDataM env ctx model mc k
              (genFieldsM env ctx model mc model.fields [] stG).2).1 := rfl
      rw [hcons] at hr
      rcases List.mem_cons.mp hr with rfl | hr'
      · exact genFieldsM_enum_key env ctx model mc field hskip hfk hnull
          model.fields [] stG hnd hmem
      · exact ihk _ r hr'

/-- The valueless enum field of the C9 counterexample and witness. -/
def enumField : SchemaField := { name := "status", type := "enum" }

def enumModel : SchemaModel := { name := "M", fields := [enumField] }

/-- C9 counterexample: with neither `field.enumValues` nor config `values`
provided, the generated record carries the key with JavaScript `null` — the
key is not omitted as the claim states (only `undefined` is dropped). -/
theorem enum_claim9_cex :
    enumField.enumValues = none ∧
    (generateModelDataM env0 ctxEmpty enumModel {} 1 st0).1 =
      [[("status", Value.null)]] :=
  ⟨rfl, rfl⟩

/-- C9 witness: the amended behaviour applied at the concrete valueless enum
field: the key is present with value `null` in the generated record. -/
theorem enum_field_generation_witness :
    [("status", Value.null)].lookup "status" = some Value.null :=
  (enum_field_generation env0 ctxEmpty enumField none st0 rfl rfl rfl rfl
      rfl).2.2.2 enumModel {} 1 st0 (by decide) (List.mem_singleton.mpr rfl) rfl rfl
    rfl (Or.inr ⟨rfl, rfl⟩) [("status", Value.null)]
    (by
      have h : (generateModelDataM env0 ctxEmpty enumModel {} 1 st0).1 =
          [[("status", Value.null)]] := rfl
      rw [h]
      exact List.mem_singleton.mpr rfl)

/-! ## Reference resolution fallback (C4) -/

/-- Record generation touches only the tick and the trace of the run state:
the store tables and the `generatedData` map are unchanged. -/
def GenPure (st st' : SeedSt) : Prop :=
  st'.db = st.db ∧ st'.generatedData = st.generatedData

theorem genPure_refl (st : SeedSt) : GenPure st st := ⟨rfl, rfl⟩

theorem genPure_trans {a b c : SeedSt} (h1 : GenPure a b) (h2 : GenPure b c) :
    GenPure a c :=
  ⟨h2.1.trans h1.1, h2.2.trans h1.2⟩

theorem resolveReferenceM_pure (env : Env) (ctx : SeederCtx) (f : SchemaField)
    (st : SeedSt) : GenPure st (resolveReferenceM env ctx f st).2 := by
  unfold resolveReferenceM
  dsimp only
  repeat' split
  all_goals exact ⟨rfl, rfl⟩

theorem randBetween_pure (env : Env) (st : SeedSt) (lo hi : Int) :
    GenPure st (randBetween env st lo hi).2 := ⟨rfl, rfl⟩

theorem arrayItems_pure (env : Env) (nm : String) (cfg : Option FieldConfig) :
    ∀ (k : Nat) (st : SeedSt), GenPure st (arrayItems env nm cfg k st).2 := by
  intro k
  induction k with
  | zero => intro st; exact ⟨rfl, rfl⟩
  | succ k ih =>
    intro st
    show GenPure st (arrayItems env nm cfg (k + 1) st).2
    rw [arrayItems]
    dsimp only
    repeat' split
    all_goals exact genPure_trans ⟨rfl, rfl⟩ (ih _)

set_option maxHeartbeats 1000000 in
theorem generateFieldValueM_pure (env : Env) (f : SchemaField)
    (cfg : Option FieldConfig) (st : SeedSt) :
    GenPure st (generateFieldValueM env f cfg st).2 := by
  unfold generateFieldValueM
  dsimp only
  by_cases h1 : optTrue (cfg.bind fun x => x.ignore) = true
  · rw [if_pos h1]; exact ⟨rfl, rfl⟩
  rw [if_neg h1]
  by_cases h2 : (f.name == "id" || f.name == "_id") = true
  · rw [if_pos h2]; exact ⟨rfl, rfl⟩
  rw [if_neg h2]
  cases hd : f.defaultValue with
  | some v => cases v <;> exact ⟨rfl, rfl⟩
  | none =>
    cases hc : cfg.bind fun x => x.defaultValue with
    | some v => exact ⟨rfl, rfl⟩
    | none =>
      by_cases h3 : (effType cfg f == "string") = true
      · rw [if_pos h3]; exact ⟨rfl, rfl⟩
      rw [if_neg h3]
      by_cases h4 : (effType cfg f == "number") = true
      · rw [if_pos h4]; exact ⟨rfl, rfl⟩
      rw [if_neg h4]
      by_cases h5 : (effType cfg f == "date" || effType cfg f == "datetime") = true
      · rw [if_pos h5]
        cases env.oracle.genDate st.tick f.name cfg <;> exact ⟨rfl, rfl⟩
      rw [if_neg h5]
      by_cases h6 : (effType cfg f == "boolean") = true
      · rw [if_pos h6]; exact ⟨rfl, rfl⟩
      rw [if_neg h6]
      by_cases h7 : (effType cfg f == "enum") = true
      · rw [if_pos h7]; exact ⟨rfl, rfl⟩
      rw [if_neg h7]
      by_cases h8 : (effType cfg f == "objectid") = true
      · rw [if_pos h8]; exact ⟨rfl, rfl⟩
      rw [if_neg h8]
      by_cases h9 : (effType cfg f == "array") = true
      · rw [if_pos h9]
        exact genPure_trans (by exact ⟨rfl, rfl⟩) (arrayItems_pure _ _ _ _ _)
      rw [if_neg h9]
      by_cases h10 : (effType cfg f == "json") = true
      · rw [if_pos h10]; exact ⟨rfl, rfl⟩
      rw [if_neg h10]
      exact ⟨rfl, rfl⟩

theorem collectRefs_pure (env : Env) (ctx : SeederCtx) (f : SchemaField) :
    ∀ (k : Nat) (st : SeedSt), GenPure st (collectRefs env ctx f k st).2 := by
  intro k
  induction k with
  | zero => intro st; exact ⟨rfl, rfl⟩
  | succ k ih =>
    intro st
    show GenPure st (collectRefs env ctx f (k + 1) st).2
    rw [collectRefs]
    dsimp only
    repeat' split
    all_goals exact genPure_trans (resolveReferenceM_pure env ctx f st) (ih _)

theorem genFieldsM_pure (env : Env) (ctx : SeederCtx) (model : SchemaModel)
    (mc : ModelConfig) :
    ∀ (fields : List SchemaField) (record : Record) (st : SeedSt),
      GenPure st (genFieldsM env ctx model mc fields record st).2 := by
  intro fields
  induction fields with
  | nil => intro record st; exact ⟨rfl, rfl⟩
  | cons g rest ih =>
    intro record st
    show GenPure st (genFieldsM env ctx model mc (g :: rest) record st).2
    rw [genFieldsM]
    dsimp only
    repeat' split
    all_goals first
      | exact ih _ _
      | exact genPure_trans (resolveReferenceM_pure env ctx g st) (ih _ _)
      | exact genPure_trans (generateFieldValueM_pure env g _ st) (ih _ _)
      | exact genPure_trans (by exact genPure_trans (by exact genPure_trans (resolveReferenceM_pure env ctx g st) ⟨rfl, rfl⟩) (collectRefs_pure _ _ _ _ _)) (ih _ _)

theorem generateModelDataM_pure (env : Env) (ctx : SeederCtx)
    (model : SchemaModel) (mc : ModelConfig) :
    ∀ (count : Nat) (st : SeedSt),
      GenPure st (generateModelDataM env ctx model mc count st).2 := by
  intro count
  induction count with
  | zero => intro st; exact ⟨rfl, rfl⟩
  | succ k ih =>
    intro st
    exact genPure_trans (genFieldsM_pure env ctx model mc model.fields [] st) (ih _)

theorem store_branch_sound (env : Env) (ctx : SeederCtx) (r : String)
    (st st1 : SeedSt) (hdb : st1.db = st.db) (v : Value)
    (hv : ((if ctx.clients.contains r then
             let st2 : SeedSt := { st1 with trace := st1.trace ++ [.findRefsOp r] }
             match env.failFind r with
             | some _ => ((none : Option Value), st2)
             | none =>
               let records := (tableOf st2.db r).take 100
               if records.length > 0 then
                 let idx := env.oracle.pick st2.tick records.length % records.length
                 match records.get? idx with
                 | some rec => (rec.lookup "_id", bump st2)
                 | none => (none, bump st2)
               else (none, st2)
           else (none, st1)) : Option Value × SeedSt).1 = some v) :
    ∃ rec, rec ∈ (tableOf st.db r).take 100 ∧ rec.lookup "_id" = some v := by
  by_cases hc : ctx.clients.contains r = true
  · rw [if_pos hc] at hv
    dsimp only at hv
    cases hf : env.failFind r with
    | some msg => rw [hf] at hv; exact Option.noConfusion hv
    | none =>
      rw [hf, hdb] at hv
      by_cases hl : ((tableOf st.db r).take 100).length > 0
      · rw [if_pos hl] at hv
        cases hq : ((tableOf st.db r).take 100).get?
            (env.oracle.pick st1.tick ((tableOf st.db r).take 100).length %
              ((tableOf st.db r).take 100).length) with
        | some rec =>
          rw [hq] at hv
          exact ⟨rec, List.get?_mem hq, hv⟩
        | none => rw [hq] at hv; exact Option.noConfusion hv
      · rw [if_neg hl] at hv; exact Option.noConfusion hv
  · rw [if_neg hc] at hv; exact Option.noConfusion hv

theorem resolveReferenceM_sound (env : Env) (ctx : SeederCtx) (f : SchemaField)
    (st : SeedSt) (r : String) (hrel : f.relationModel = some r) :
    ∀ v, (resolveReferenceM env ctx f st).1 = some v →
      ∃ rec, (rec ∈ lookupGen st r ∨ rec ∈ (tableOf st.db r).take 100) ∧
        rec.lookup "_id" = some v := by
  intro v hv
  unfold resolveReferenceM at hv
  rw [hrel] at hv
  dsimp only at hv
  by_cases hre : (r == "") = true
  · rw [if_pos hre] at hv; exact Option.noConfusion hv
  rw [if_neg hre] at hv
  by_cases hlen : (lookupGen st r).length > 0
  · rw [if_pos hlen] at hv
    dsimp only at hv
    cases hq : (lookupGen st r).get?
        (env.oracle.pick st.tick (lookupGen st r).length % (lookupGen st r).length) with
    | some rec =>
      rw [hq] at hv
      dsimp only at hv
      cases hid : rec.lookup "_id" with
      | some w =>
        rw [hid] at hv
        dsimp only at hv
        by_cases htr : truthy w = true
        · rw [if_pos htr] at hv
          dsimp only at hv
          exact ⟨rec, Or.inl (List.get?_mem hq),
            by rw [hid]; exact congrArg some (Option.some.inj hv)⟩
        · rw [if_neg htr] at hv
          dsimp only at hv
          exact (store_branch_sound env ctx r st (bump st) rfl v hv).imp
            (fun rec h => ⟨Or.inr h.1, h.2⟩)
      | none =>
        rw [hid] at hv
        dsimp only at hv
        exact (store_branch_sound env ctx r st (bump st) rfl v hv).imp
          (fun rec h => ⟨Or.inr h.1, h.2⟩)
    | none =>
      rw [hq] at hv
      dsimp only at hv
      exact (store_branch_sound env ctx r st (bump st) rfl v hv).imp
        (fun rec h => ⟨Or.inr h.1, h.2⟩)
  · rw [if_neg hlen] at hv
    dsimp only at hv
    exact (store_branch_sound env ctx r st st rfl v hv).imp
      (fun rec h => ⟨Or.inr h.1, h.2⟩)

theorem resolveReferenceM_none_of_empty (env : Env) (ctx : SeederCtx)
    (f : SchemaField) (st : SeedSt) (r : String) (hrel : f.relationModel = some r)
    (hgen : lookupGen st r = []) (hdb : tableOf st.db r = []) :
    (resolveReferenceM env ctx f st).1 = none := by
  cases hres : (resolveReferenceM env ctx f st).1 with
  | none => rfl
  | some v =>
    obtain ⟨rec, hmem, _⟩ := resolveReferenceM_sound env ctx f st r hrel v hres
    cases hmem with
    | inl h => rw [hgen] at h; exact absurd h (List.not_mem_nil rec)
    | inr h => rw [hdb] at h; simp at h

theorem genFieldsM_fk_omitted (env : Env) (ctx : SeederCtx) (model : SchemaModel)
    (mc : ModelConfig) (f : SchemaField) (st : SeedSt) (r : String)
    (hrel : f.relationModel = some r) (hre : (r == "") = false)
    (hfk : f.isForeignKey = true) (hskip : shouldSkipFieldM f mc = false)
    (hgen : lookupGen st r = []) (hdb : tableOf st.db r = []) :
    ((genFieldsM env ctx model mc [f] [] st).1).lookup f.name = none := by
  have hres := resolveReferenceM_none_of_empty env ctx f st r hrel hgen hdb
  have hne : r ≠ "" := by
    intro h
    rw [h] at hre
    simp at hre
  have htru : truthyStr f.relationModel = true := by
    rw [hrel]
    simp [truthyStr, hne]
  rw [genFieldsM]
  rw [if_neg (by simp [hskip])]
  dsimp only
  rw [if_pos (by simp [hfk, htru])]
  rw [if_pos (show isNullish (resolveReferenceM env ctx f st).1 = true by rw [hres]; rfl)]
  rfl

theorem resolveReferenceM_genHit (env : Env) (ctx : SeederCtx) (f : SchemaField)
    (st : SeedSt) (r : String) (hrel : f.relationModel = some r)
    (hre : (r == "") = false) (rec : Record) (v : Value)
    (hq : (lookupGen st r).get? (env.oracle.pick st.tick (lookupGen st r).length %
        (lookupGen st r).length) = some rec)
    (hid : rec.lookup "_id" = some v) (htr : truthy v = true) :
    resolveReferenceM env ctx f st = (some v, bump st) := by
  have hlen : (lookupGen st r).length > 0 :=
    Nat.lt_of_le_of_lt (Nat.zero_le _) (List.get?_eq_some.mp hq).1
  unfold resolveReferenceM
  rw [hrel]
  dsimp only
  rw [if_neg (by simp [hre])]
  rw [if_pos hlen]
  dsimp only
  rw [hq]
  dsimp only
  rw [hid]
  dsimp only
  rw [if_pos htr]

def fkUser : SchemaField :=
  { name := "authorId", type := "objectid", isForeignKey := true,
    relationModel := some "User" }

def ctx4 : SeederCtx :=
  { models := [demoUser], clients := ["User"], config := {} }

def st4 : SeedSt :=
  { db := [("User", [[("_id", Value.oid 5)]])], nextId := 9,
    generatedData := [("User", [[("name", Value.str "x")]])], tick := 0, trace := [] }

def stG4 : SeedSt :=
  { db := [], nextId := 1,
    generatedData := [("User", [[("_id", Value.oid 3)]])], tick := 0, trace := [] }

/-- **C4**: reference resolution soundness and fallback for `resolveReference`
(part_003 lines 233-262). (1) a returned identifier is the `_id` of a
generated record of the related model or of one of the first 100 store
records, never fabricated; (2) if both the generated set and the store table
are empty the resolver returns absent; (3) the dependent field is then
omitted from the generated record; (4) a truthy `_id` sampled from the
generated records is returned directly with the state merely ticked: the
store is not consulted. -/
theorem reference_resolution_fallback (env : Env) (ctx : SeederCtx)
    (f : SchemaField) (st : SeedSt) (r : String) (hrel : f.relationModel = some r) :
    (∀ v, (resolveReferenceM env ctx f st).1 = some v →
       ∃ rec, (rec ∈ lookupGen st r ∨ rec ∈ (tableOf st.db r).take 100) ∧
         rec.lookup "_id" = some v) ∧
    (lookupGen st r = [] → tableOf st.db r = [] →
       (resolveReferenceM env ctx f st).1 = none) ∧
    (∀ model mc, (r == "") = false → f.isForeignKey = true →
       shouldSkipFieldM f mc = false → lookupGen st r = [] → tableOf st.db r = [] →
       ((genFieldsM env ctx model mc [f] [] st).1).lookup f.name = none) ∧
    (∀ rec v, (r == "") = false →
       (lookupGen st r).get? (env.oracle.pick st.tick (lookupGen st r).length %
         (lookupGen st r).length) = some rec →
       rec.lookup "_id" = some v → truthy v = true →
       resolveReferenceM env ctx f st = (some v, bump st)) :=
  ⟨resolveReferenceM_sound env ctx f st r hrel,
   resolveReferenceM_none_of_empty env ctx f st r hrel,
   fun model mc hre hfk hskip hgen hdb =>
     genFieldsM_fk_omitted env ctx model mc f st r hrel hre hfk hskip hgen hdb,
   fun rec v hre hq hid htr =>
     resolveReferenceM_genHit env ctx f st r hrel hre rec v hq hid htr⟩

/-- C4 counterexample: the generated set of `User` is non-empty (one record,
lacking a truthy `_id`), yet the resolver consults the store — the trace shows
the find — and returns a store identifier. This refutes the claim that the
store is fetched only if no generated records exist. -/
theorem resolveReference_claim4_cex :
    (lookupGen st4 "User").length = 1 ∧
    (resolveReferenceM env0 ctx4 fkUser st4).1 = some (Value.oid 5) ∧
    (resolveReferenceM env0 ctx4 fkUser st4).2.trace = [StoreOp.findRefsOp "User"] :=
  ⟨rfl, rfl, rfl⟩

/-- C4 witness: on concrete inputs, resolution on empty generated/store data
returns absent and omits the field, and a truthy generated `_id` is returned
with the state merely ticked. -/
theorem reference_resolution_fallback_witness :
    (resolveReferenceM env0 ctx4 fkUser st0).1 = none ∧
    ((genFieldsM env0 ctx4 demoPost {} [fkUser] [] st0).1).lookup "authorId" = none ∧
    resolveReferenceM env0 ctx4 fkUser stG4 = (some (Value.oid 3), bump stG4) :=
  ⟨(reference_resolution_fallback env0 ctx4 fkUser st0 "User" rfl).2.1 rfl rfl,
   (reference_resolution_fallback env0 ctx4 fkUser st0 "User" rfl).2.2.1 demoPost {}
     rfl rfl rfl rfl rfl,
   (reference_resolution_fallback env0 ctx4 fkUser stG4 "User" rfl).2.2.2
     [("_id", Value.oid 3)] (Value.oid 3) rfl rfl rfl rfl⟩

/-! ## Trace accounting for resets (C7) -/

def isDeleteOp : StoreOp → Bool
  | .deleteManyOp _ => true
  | _ => false

/-- `st2` extends the trace of `st` by operations none of which is a delete. -/
def TraceND (st st2 : SeedSt) : Prop :=
  ∃ δ, st2.trace = st.trace ++ δ ∧ δ.all (fun op => !isDeleteOp op) = true

theorem traceND_of_eq {st st2 : SeedSt} (h : st2.trace = st.trace) : TraceND st st2 :=
  ⟨[], by rw [h, List.append_nil], rfl⟩

theorem traceND_trans {a b c : SeedSt} (h1 : TraceND a b) (h2 : TraceND b c) :
    TraceND a c := by
  obtain ⟨d1, e1, n1⟩ := h1
  obtain ⟨d2, e2, n2⟩ := h2
  refine ⟨d1 ++ d2, by rw [e2, e1, List.append_assoc], ?_⟩
  simp only [List.all_append, n1, n2, Bool.and_self]

theorem traceND_op {st st2 : SeedSt} (op : StoreOp)
    (h : st2.trace = st.trace ++ [op]) (hop : isDeleteOp op = false) :
    TraceND st st2 :=
  ⟨[op], h, by simp [hop]⟩

theorem resolveReferenceM_traceND (env : Env) (ctx : SeederCtx) (f : SchemaField)
    (st : SeedSt) : TraceND st (resolveReferenceM env ctx f st).2 := by
  unfold resolveReferenceM
  dsimp only
  repeat' split
  all_goals first
    | exact traceND_of_eq rfl
    | exact traceND_op (.findRefsOp _) rfl rfl

theorem arrayItems_traceND (env : Env) (nm : String) (cfg : Option FieldConfig) :
    ∀ (k : Nat) (st : SeedSt), TraceND st (arrayItems env nm cfg k st).2 := by
  intro k
  induction k with
  | zero => intro st; exact traceND_of_eq rfl
  | succ k ih =>
    intro st
    show TraceND st (arrayItems env nm cfg (k + 1) st).2
    rw [arrayItems]
    dsimp only
    repeat' split
    all_goals exact traceND_trans (traceND_of_eq rfl) (ih _)

set_option maxHeartbeats 1000000 in
theorem generateFieldValueM_traceND (env : Env) (f : SchemaField)
    (cfg : Option FieldConfig) (st : SeedSt) :
    TraceND st (generateFieldValueM env f cfg st).2 := by
  unfold generateFieldValueM
  dsimp only
  by_cases h1 : optTrue (cfg.bind fun x => x.ignore) = true
  · rw [if_pos h1]; exact traceND_of_eq rfl
  rw [if_neg h1]
  by_cases h2 : (f.name == "id" || f.name == "_id") = true
  · rw [if_pos h2]; exact traceND_of_eq rfl
  rw [if_neg h2]
  cases hd : f.defaultValue with
  | some v => cases v <;> exact traceND_of_eq rfl
  | none =>
    cases hc : cfg.bind fun x => x.defaultValue with
    | some v => exact traceND_of_eq rfl
    | none =>
      by_cases h3 : (effType cfg f == "string") = true
      · rw [if_pos h3]; exact traceND_of_eq rfl
      rw [if_neg h3]
      by_cases h4 : (effType cfg f == "number") = true
      · rw [if_pos h4]; exact traceND_of_eq rfl
      rw [if_neg h4]
      by_cases h5 : (effType cfg f == "date" || effType cfg f == "datetime") = true
      · rw [if_pos h5]
        cases env.oracle.genDate st.tick f.name cfg <;> exact traceND_of_eq rfl
      rw [if_neg h5]
      by_cases h6 : (effType cfg f == "boolean") = true
      · rw [if_pos h6]; exact traceND_of_eq rfl
      rw [if_neg h6]
      by_cases h7 : (effType cfg f == "enum") = true
      · rw [if_pos h7]; exact traceND_of_eq rfl
      rw [if_neg h7]
      by_cases h8 : (effType cfg f == "objectid") = true
      · rw [if_pos h8]; exact traceND_of_eq rfl
      rw [if_neg h8]
      by_cases h9 : (effType cfg f == "array") = true
      · rw [if_pos h9]
        exact traceND_trans (by exact traceND_of_eq rfl) (arrayItems_traceND _ _ _ _ _)
      rw [if_neg h9]
      by_cases h10 : (effType cfg f == "json") = true
      · rw [if_pos h10]; exact traceND_of_eq rfl
      rw [if_neg h10]
      exact traceND_of_eq rfl

theorem collectRefs_traceND (env : Env) (ctx : SeederCtx) (f : SchemaField) :
    ∀ (k : Nat) (st : SeedSt), TraceND st (collectRefs env ctx f k st).2 := by
  intro k
  induction k with
  | zero => intro st; exact traceND_of_eq rfl
  | succ k ih =>
    intro st
    show TraceND st (collectRefs env ctx f (k + 1) st).2
    rw [collectRefs]
    dsimp only
    repeat' split
    all_goals exact traceND_trans (resolveReferenceM_traceND env ctx f st) (ih _)

theorem genFieldsM_traceND (env : Env) (ctx : SeederCtx) (model : SchemaModel)
    (mc : ModelConfig) :
    ∀ (fields : List SchemaField) (record : Record) (st : SeedSt),
      TraceND st (genFieldsM env ctx model mc fields record st).2 := by
  intro fields
  induction fields with
  | nil => intro record st; exact traceND_of_eq rfl
  | cons g rest ih =>
    intro record st
    show TraceND st (genFieldsM env ctx model mc (g :: rest) record st).2
    rw [genFieldsM]
    dsimp only
    repeat' split
    all_goals first
      | exact ih _ _
      | exact traceND_trans (resolveReferenceM_traceND env ctx g st) (ih _ _)
      | exact traceND_trans (generateFieldValueM_traceND env g _ st) (ih _ _)
      | exact traceND_trans (by exact traceND_trans (by exact traceND_trans (resolveReferenceM_traceND env ctx g st) (traceND_of_eq rfl)) (collectRefs_traceND _ _ _ _ _)) (ih _ _)

theorem generateModelDataM_traceND (env : Env) (ctx : SeederCtx)
    (model : SchemaModel) (mc : ModelConfig) :
    ∀ (count : Nat) (st : SeedSt),
      TraceND st (generateModelDataM env ctx model mc count st).2 := by
  intro count
  induction count with
  | zero => intro st; exact traceND_of_eq rfl
  | succ k ih =>
    intro st
    exact traceND_trans (genFieldsM_traceND env ctx model mc model.fields [] st) (ih _)

theorem resolveForeignKeyP_traceND (env : Env) (ctx : SeederCtx) (f : SchemaField)
    (st : SeedSt) : TraceND st (resolveForeignKeyP env ctx f st).2 := by
  unfold resolveForeignKeyP
  dsimp only
  repeat' split
  all_goals first
    | exact traceND_of_eq rfl
    | exact traceND_op (.findRefsOp _) rfl rfl

set_option maxHeartbeats 1000000 in
theorem generateFieldValueP_traceND (env : Env) (f : SchemaField)
    (cfg : Option FieldConfig) (st : SeedSt) :
    TraceND st (generateFieldValueP env f cfg st).2 := by
  unfold generateFieldValueP
  dsimp only
  cases env.oracle.genDate st.tick f.name cfg <;>
    (repeat' split
     all_goals exact traceND_of_eq rfl)

theorem genFieldsP_traceND (env : Env) (ctx : SeederCtx) (model : SchemaModel)
    (mc : ModelConfig) :
    ∀ (fields : List SchemaField) (record : Record) (st : SeedSt),
      TraceND st (genFieldsP env ctx model mc fields record st).2 := by
  intro fields
  induction fields with
  | nil => intro record st; exact traceND_of_eq rfl
  | cons g rest ih =>
    intro record st
    show TraceND st (genFieldsP env ctx model mc (g :: rest) record st).2
    rw [genFieldsP]
    dsimp only
    repeat' split
    all_goals first
      | exact ih _ _
      | exact traceND_trans (resolveForeignKeyP_traceND env ctx _ st) (ih _ _)
      | exact traceND_trans (generateFieldValueP_traceND env g _ st) (ih _ _)

theorem generateModelDataP_traceND (env : Env) (ctx : SeederCtx)
    (model : SchemaModel) (mc : ModelConfig) :
    ∀ (count : Nat) (st : SeedSt),
      TraceND st (generateModelDataP env ctx model mc count st).2 := by
  intro count
  induction count with
  | zero => intro st; exact traceND_of_eq rfl
  | succ k ih =>
    intro st
    exact traceND_trans (genFieldsP_traceND env ctx model mc model.fields [] st) (ih _)

/-- The state carried by either outcome of a counting storage step. -/
def exState : Except (String × SeedSt) (Nat × SeedSt) → SeedSt
  | .error (_, s) => s
  | .ok (_, s) => s

/-- The state carried by either outcome of a state-valued storage step. -/
def exStateS : Except (String × SeedSt) SeedSt → SeedSt
  | .error (_, s) => s
  | .ok s => s

theorem deleteManyM_trace (env : Env) (n : String) (st : SeedSt) :
    (exStateS (deleteManyM env n st)).trace = st.trace ++ [StoreOp.deleteManyOp n] := by
  unfold deleteManyM
  dsimp only
  repeat' split
  all_goals rfl

theorem saveOneM_traceND (env : Env) (n : String) (r : Record) (st : SeedSt) :
    TraceND st (exStateS (saveOneM env n r st)) := by
  unfold saveOneM
  dsimp only
  repeat' split
  all_goals exact traceND_op (.saveOp n r) rfl rfl

theorem insertLoopM_traceND (env : Env) (n : String) :
    ∀ (l : List Record) (st : SeedSt), TraceND st (exState (insertLoopM env n l st)) := by
  intro l
  induction l with
  | nil => intro st; exact traceND_of_eq rfl
  | cons r rest ih =>
    intro st
    show TraceND st (exState (insertLoopM env n (r :: rest) st))
    rw [insertLoopM]
    cases hs : saveOneM env n r st with
    | error e =>
      have := saveOneM_traceND env n r st
      rw [hs] at this
      exact this
    | ok st1 =>
      have h1 := saveOneM_traceND env n r st
      rw [hs] at h1
      dsimp only
      cases hl : insertLoopM env n rest st1 with
      | error e =>
        have h2 := ih st1
        rw [hl] at h2
        exact traceND_trans h1 h2
      | ok p =>
        have h2 := ih st1
        rw [hl] at h2
        exact traceND_trans h1 h2

theorem insertDataM_traceND (env : Env) (ctx : SeederCtx) (n : String)
    (data : List Record) (st : SeedSt) :
    TraceND st (exState (insertDataM env ctx n data st)) := by
  unfold insertDataM
  dsimp only
  by_cases hr : optTrue (ctx.config.global.bind fun x => x.randomize) = true
  · rw [if_pos hr]
    exact traceND_trans (traceND_of_eq rfl)
      (insertLoopM_traceND env n (env.oracle.shuffle st.tick (cleanData data)) (bump st))
  · rw [if_neg hr]
    cases hf : env.failInsertMany n (cleanData data) with
    | some msg => exact traceND_op (.insertManyOp n (cleanData data)) rfl rfl
    | none => exact traceND_op (.insertManyOp n (cleanData data)) rfl rfl

theorem fetchInsertedRecordsM_traceND (env : Env) (n : String) (count : Nat)
    (st : SeedSt) : TraceND st (fetchInsertedRecordsM env n count st).2 := by
  unfold fetchInsertedRecordsM
  dsimp only
  repeat' split
  all_goals exact traceND_op (.findInsertedOp n count) rfl rfl

theorem createOneP_traceND (env : Env) (n : String) (r : Record) (st : SeedSt) :
    TraceND st (exStateS (createOneP env n r st)) := by
  unfold createOneP
  dsimp only
  repeat' split
  all_goals exact traceND_op (.saveOp n r) rfl rfl

theorem insertLoopCreateP_traceND (env : Env) (n : String) :
    ∀ (l : List Record) (st : SeedSt),
      TraceND st (exStateS (insertLoopCreateP env n l st)) := by
  intro l
  induction l with
  | nil => intro st; exact traceND_of_eq rfl
  | cons r rest ih =>
    intro st
    show TraceND st (exStateS (insertLoopCreateP env n (r :: rest) st))
    rw [insertLoopCreateP]
    cases hs : createOneP env n r st with
    | error e =>
      have := createOneP_traceND env n r st
      rw [hs] at this
      exact this
    | ok st1 =>
      have h1 := createOneP_traceND env n r st
      rw [hs] at h1
      dsimp only
      exact traceND_trans h1 (ih st1)

theorem insertDataP_insert_traceND (env : Env) (ctx : SeederCtx) (modelName : String)
    (cd : List Record) (st2 : SeedSt) :
    TraceND st2 (exState (
      if optTrue (ctx.config.global.bind (·.randomize)) then
        match insertLoopCreateP env modelName cd st2 with
        | .error e => .error e
        | .ok st3 => .ok (cd.length, st3)
      else
        match insertLoopCreateP env modelName cd st2 with
        | .error e => .error e
        | .ok st3 => .ok (cd.length, st3))) := by
  have h := insertLoopCreateP_traceND env modelName cd st2
  by_cases hrand : optTrue (ctx.config.global.bind fun x => x.randomize) = true
  · rw [if_pos hrand]
    cases hi : insertLoopCreateP env modelName cd st2 with
    | error e => rw [hi] at h; exact h
    | ok st3 => rw [hi] at h; exact h
  · rw [if_neg hrand]
    cases hi : insertLoopCreateP env modelName cd st2 with
    | error e => rw [hi] at h; exact h
    | ok st3 => rw [hi] at h; exact h

theorem insertDataP_trace (env : Env) (ctx : SeederCtx) (modelName : String)
    (data : List Record) (st : SeedSt)
    (hcl : ctx.clients.contains (lowerFirst modelName) = true) :
    ∃ δ, (exState (insertDataP env ctx modelName data st)).trace =
        st.trace ++ (if optTrue (ctx.config.global.bind (·.reset)) then
          [StoreOp.deleteManyOp modelName] else []) ++ δ ∧
      δ.all (fun op => !isDeleteOp op) = true := by
  unfold insertDataP
  dsimp only
  rw [if_pos hcl]
  by_cases hg : optTrue (ctx.config.global.bind fun x => x.reset) = true
  · rw [if_pos hg, if_pos hg]
    cases hd : deleteManyM env modelName st with
    | error e =>
      have h := deleteManyM_trace env modelName st
      rw [hd] at h
      exact ⟨[], by rw [List.append_nil]; exact h, rfl⟩
    | ok st2 =>
      have h := deleteManyM_trace env modelName st
      rw [hd] at h
      have h2 : st2.trace = st.trace ++ [StoreOp.deleteManyOp modelName] := h
      dsimp only
      obtain ⟨δ, e2, n2⟩ := insertDataP_insert_traceND env ctx modelName (cleanData data) st2
      exact ⟨δ, e2.trans (by rw [h2]), n2⟩
  · rw [if_neg hg, if_neg hg]
    dsimp only
    obtain ⟨δ, e2, n2⟩ := insertDataP_insert_traceND env ctx modelName (cleanData data) st
    exact ⟨δ, e2.trans (by simp), n2⟩

theorem seedM_trace (env : Env) (ctx : SeederCtx) (modelName : String) (count : Nat)
    (opts : Option ModelConfig) (st : SeedSt) (model : SchemaModel)
    (hfind : ctx.models.find? (fun m => m.name == modelName) = some model)
    (hcl : ctx.clients.contains modelName = true) :
    ∃ δ, (seedM env ctx modelName count opts st).2.trace =
        st.trace ++ (if optTrue (mergeOpts (getModelConfig ctx.config modelName) opts).reset
            || optTrue (ctx.config.global.bind (·.reset)) then
          [StoreOp.deleteManyOp modelName] else []) ++ δ ∧
      δ.all (fun op => !isDeleteOp op) = true := by
  unfold seedM seedCoreM
  rw [hfind]
  dsimp only
  rw [if_pos hcl]
  by_cases hr : (optTrue (mergeOpts (getModelConfig ctx.config modelName) opts).reset
      || optTrue (ctx.config.global.bind fun x => x.reset)) = true
  · rw [if_pos hr, if_pos hr]
    cases hd : deleteManyM env modelName st with
    | error e =>
      have h := deleteManyM_trace env modelName st
      rw [hd] at h
      exact ⟨[], by rw [List.append_nil]; exact h, rfl⟩
    | ok st1 =>
      have h := deleteManyM_trace env modelName st
      rw [hd] at h
      have h2 : st1.trace = st.trace ++ [StoreOp.deleteManyOp modelName] := h
      dsimp only
      have hgen := generateModelDataM_traceND env ctx model
        (mergeOpts (getModelConfig ctx.config modelName) opts) count st1
      have hins := insertDataM_traceND env ctx modelName
        (generateModelDataM env ctx model
          (mergeOpts (getModelConfig ctx.config modelName) opts) count st1).1
        (generateModelDataM env ctx model
          (mergeOpts (getModelConfig ctx.config modelName) opts) count st1).2
      cases hi : insertDataM env ctx modelName
          (generateModelDataM env ctx model
            (mergeOpts (getModelConfig ctx.config modelName) opts) count st1).1
          (generateModelDataM env ctx model
            (mergeOpts (getModelConfig ctx.config modelName) opts) count st1).2 with
      | error e =>
        rw [hi] at hins
        obtain ⟨δ, e2, n2⟩ := traceND_trans hgen hins
        exact ⟨δ, e2.trans (by rw [h2]), n2⟩
      | ok p =>
        rw [hi] at hins
        have hfetch := fetchInsertedRecordsM_traceND env modelName p.1 p.2
        obtain ⟨δ, e2, n2⟩ := traceND_trans hgen (traceND_trans hins hfetch)
        exact ⟨δ, e2.trans (by rw [h2]), n2⟩
  · rw [if_neg hr, if_neg hr]
    dsimp only
    have hgen := generateModelDataM_traceND env ctx model
      (mergeOpts (getModelConfig ctx.config modelName) opts) count st
    have hins := insertDataM_traceND env ctx modelName
      (generateModelDataM env ctx model
        (mergeOpts (getModelConfig ctx.config modelName) opts) count st).1
      (generateModelDataM env ctx model
        (mergeOpts (getModelConfig ctx.config modelName) opts) count st).2
    cases hi : insertDataM env ctx modelName
        (generateModelDataM env ctx model
          (mergeOpts (getModelConfig ctx.config modelName) opts) count st).1
        (generateModelDataM env ctx model
          (mergeOpts (getModelConfig ctx.config modelName) opts) count st).2 with
    | error e =>
      rw [hi] at hins
      obtain ⟨δ, e2, n2⟩ := traceND_trans hgen hins
      exact ⟨δ, e2.trans (by simp), n2⟩
    | ok p =>
      rw [hi] at hins
      have hfetch := fetchInsertedRecordsM_traceND env modelName p.1 p.2
      obtain ⟨δ, e2, n2⟩ := traceND_trans hgen (traceND_trans hins hfetch)
      exact ⟨δ, e2.trans (by simp), n2⟩

theorem seedP_trace (env : Env) (ctx : SeederCtx) (modelName : String) (count : Nat)
    (opts : Option ModelConfig) (st : SeedSt) (model : SchemaModel)
    (hfind : ctx.models.find? (fun m => m.name == modelName) = some model)
    (hcl : ctx.clients.contains (lowerFirst modelName) = true) :
    ∃ δ1 δ2, (seedP env ctx modelName count opts st).2.trace =
        st.trace ++ δ1 ++ (if optTrue (ctx.config.global.bind (·.reset)) then
          [StoreOp.deleteManyOp modelName] else []) ++ δ2 ∧
      δ1.all (fun op => !isDeleteOp op) = true ∧
      δ2.all (fun op => !isDeleteOp op) = true := by
  unfold seedP seedCoreP
  rw [hfind]
  dsimp only
  obtain ⟨δ1, e1, n1⟩ := generateModelDataP_traceND env ctx model
    (mergeOpts (getModelConfig ctx.config modelName) opts) count st
  obtain ⟨δ2, e2, n2⟩ := insertDataP_trace env ctx modelName
    (generateModelDataP env ctx model
      (mergeOpts (getModelConfig ctx.config modelName) opts) count st).1
    (generateModelDataP env ctx model
      (mergeOpts (getModelConfig ctx.config modelName) opts) count st).2 hcl
  cases hi : insertDataP env ctx modelName
      (generateModelDataP env ctx model
        (mergeOpts (getModelConfig ctx.config modelName) opts) count st).1
      (generateModelDataP env ctx model
        (mergeOpts (getModelConfig ctx.config modelName) opts) count st).2 with
  | error e =>
    rw [hi] at e2
    exact ⟨δ1, δ2, e2.trans (by rw [e1]), n1, n2⟩
  | ok p =>
    rw [hi] at e2
    exact ⟨δ1, δ2, e2.trans (by rw [e1]), n1, n2⟩

def modelK : SchemaModel :=
  { name := "K", fields := [{ name := "title", type := "string" }] }

def ctxP : SeederCtx :=
  { models := [modelK], clients := ["k"], config := {} }

def ctx7 : SeederCtx :=
  { models := [modelK], clients := ["K", "k"],
    config := { global := some { reset := some true } } }

/-- **C7**: reset semantics of the seed operation, by storage trace. In the
Mongoose variant a `deleteMany` is issued, before any other operation, exactly
when the merged per-model configuration or the global configuration requests a
reset. In the Prisma variant the reset is driven by the global flag only — a
per-model or call-time reset is ignored — and the delete is issued after the
records are generated (inside `insertData`), though still before any insert. -/
theorem reset_clears_model (env : Env) (ctx : SeederCtx) (modelName : String)
    (count : Nat) (opts : Option ModelConfig) (st : SeedSt) (model : SchemaModel)
    (hfind : ctx.models.find? (fun m => m.name == modelName) = some model) :
    (ctx.clients.contains modelName = true →
      ∃ δ, (seedM env ctx modelName count opts st).2.trace =
          st.trace ++ (if optTrue (mergeOpts (getModelConfig ctx.config modelName) opts).reset
              || optTrue (ctx.config.global.bind (·.reset)) then
            [StoreOp.deleteManyOp modelName] else []) ++ δ ∧
        δ.all (fun op => !isDeleteOp op) = true) ∧
    (ctx.clients.contains (lowerFirst modelName) = true →
      ∃ δ1 δ2, (seedP env ctx modelName count opts st).2.trace =
          st.trace ++ δ1 ++ (if optTrue (ctx.config.global.bind (·.reset)) then
            [StoreOp.deleteManyOp modelName] else []) ++ δ2 ∧
        δ1.all (fun op => !isDeleteOp op) = true ∧
        δ2.all (fun op => !isDeleteOp op) = true) :=
  ⟨fun hcl => seedM_trace env ctx modelName count opts st model hfind hcl,
   fun hcl => seedP_trace env ctx modelName count opts st model hfind hcl⟩

/-- C7 counterexample: in the Prisma variant a call-time (hence merged
per-model) reset request is ignored — the merged configuration has
`reset: true`, yet the seed operation's trace contains no delete, only the
single create. -/
theorem seed_claim7_cex :
    optTrue (mergeOpts (getModelConfig ctxP.config "K")
      (some { reset := some true })).reset = true ∧
    (seedP env0 ctxP "K" 1 (some { reset := some true }) st0).2.trace =
      [StoreOp.saveOp "K" [("title", Value.str "title")]] :=
  ⟨rfl, rfl⟩

/-- C7 witness: with a globally requested reset on a concrete registry, both
variants' traces decompose with the `deleteMany` present. -/
theorem reset_clears_model_witness :
    (∃ δ, (seedM env0 ctx7 "K" 1 none st0).2.trace =
        st0.trace ++ (if optTrue (mergeOpts (getModelConfig ctx7.config "K") none).reset
            || optTrue (ctx7.config.global.bind (·.reset)) then
          [StoreOp.deleteManyOp "K"] else []) ++ δ ∧
      δ.all (fun op => !isDeleteOp op) = true) ∧
    (∃ δ1 δ2, (seedP env0 ctx7 "K" 1 none st0).2.trace =
        st0.trace ++ δ1 ++ (if optTrue (ctx7.config.global.bind (·.reset)) then
          [StoreOp.deleteManyOp "K"] else []) ++ δ2 ∧
      δ1.all (fun op => !isDeleteOp op) = true ∧
      δ2.all (fun op => !isDeleteOp op) = true) :=
  ⟨(reset_clears_model env0 ctx7 "K" 1 none st0 modelK rfl).1 rfl,
   (reset_clears_model env0 ctx7 "K" 1 none st0 modelK rfl).2 rfl⟩

/-! ## Insertion batching and ordering (C8) -/

theorem saveOneM_ok (env : Env) (n : String) (r : Record) (st : SeedSt)
    (h : env.failSave n r = none) :
    ∃ st1, saveOneM env n r st = .ok st1 ∧
      st1.trace = st.trace ++ [StoreOp.saveOp n r] := by
  unfold saveOneM
  dsimp only
  rw [h]
  exact ⟨_, rfl, rfl⟩

theorem insertLoopM_ok (env : Env) (n : String)
    (hsave : ∀ r, env.failSave n r = none) :
    ∀ (l : List Record) (st : SeedSt),
      ∃ st', insertLoopM env n l st = .ok (l.length, st') ∧
        st'.trace = st.trace ++ l.map (StoreOp.saveOp n) := by
  intro l
  induction l with
  | nil => intro st; exact ⟨st, rfl, by simp⟩
  | cons r rest ih =>
    intro st
    obtain ⟨st1, hs, ht⟩ := saveOneM_ok env n r st (hsave r)
    obtain ⟨st', hl, ht'⟩ := ih st1
    refine ⟨st', ?_, ?_⟩
    · show insertLoopM env n (r :: rest) st = .ok ((r :: rest).length, st')
      rw [insertLoopM, hs]
      dsimp only
      rw [hl]
      rfl
    · rw [ht', ht]
      simp

theorem createOneP_ok (env : Env) (n : String) (r : Record) (st : SeedSt)
    (h : env.failSave n r = none) :
    ∃ st1, createOneP env n r st = .ok st1 ∧
      st1.trace = st.trace ++ [StoreOp.saveOp n r] := by
  unfold createOneP
  dsimp only
  rw [h]
  exact ⟨_, rfl, rfl⟩

theorem insertLoopCreateP_ok (env : Env) (n : String)
    (hsave : ∀ r, env.failSave n r = none) :
    ∀ (l : List Record) (st : SeedSt),
      ∃ st', insertLoopCreateP env n l st = .ok st' ∧
        st'.trace = st.trace ++ l.map (StoreOp.saveOp n) := by
  intro l
  induction l with
  | nil => intro st; exact ⟨st, rfl, by simp⟩
  | cons r rest ih =>
    intro st
    obtain ⟨st1, hs, ht⟩ := createOneP_ok env n r st (hsave r)
    obtain ⟨st', hl, ht'⟩ := ih st1
    refine ⟨st', ?_, ?_⟩
    · show insertLoopCreateP env n (r :: rest) st = .ok st'
      rw [insertLoopCreateP, hs]
      dsimp only
      rw [hl]
    · rw [ht', ht]
      simp

/-- **C8**: insertion mode of the two variants on the cleaned records. The
Mongoose variant issues a single batch `insertMany` of the cleaned data by
default, and with randomization requested saves one document at a time,
following exactly the order of the shuffled list. The Prisma variant issues
one `create` per record in the generated order in both modes: it never
batches and never shuffles. -/
theorem insert_batching (env : Env) (ctx : SeederCtx) (n : String)
    (data : List Record) (st : SeedSt) :
    (optTrue (ctx.config.global.bind (·.randomize)) = false →
      (exState (insertDataM env ctx n data st)).trace =
        st.trace ++ [StoreOp.insertManyOp n (cleanData data)] ∧
      (env.failInsertMany n (cleanData data) = none →
        ∃ st', insertDataM env ctx n data st = .ok ((cleanData data).length, st'))) ∧
    (optTrue (ctx.config.global.bind (·.randomize)) = true →
      (∀ r, env.failSave n r = none) →
      ∃ st', insertDataM env ctx n data st =
          .ok ((env.oracle.shuffle st.tick (cleanData data)).length, st') ∧
        st'.trace = st.trace ++
          (env.oracle.shuffle st.tick (cleanData data)).map (StoreOp.saveOp n)) ∧
    (ctx.clients.contains (lowerFirst n) = true →
      optTrue (ctx.config.global.bind (·.reset)) = false →
      (∀ r, env.failSave n r = none) →
      ∃ st', insertDataP env ctx n data st = .ok ((cleanData data).length, st') ∧
        st'.trace = st.trace ++ (cleanData data).map (StoreOp.saveOp n)) := by
  refine ⟨fun hrand => ⟨?_, fun hfail => ?_⟩, fun hrand hsave => ?_,
    fun hcl hg hsave => ?_⟩
  · unfold insertDataM
    dsimp only
    rw [if_neg (by simp [hrand])]
    cases hf : env.failInsertMany n (cleanData data) with
    | some msg => rfl
    | none => rfl
  · unfold insertDataM
    dsimp only
    rw [if_neg (by simp [hrand])]
    rw [hfail]
    exact ⟨_, rfl⟩
  · unfold insertDataM
    dsimp only
    rw [if_pos hrand]
    obtain ⟨st', hl, ht⟩ :=
      insertLoopM_ok env n hsave (env.oracle.shuffle st.tick (cleanData data)) (bump st)
    exact ⟨st', hl, ht⟩
  · unfold insertDataP
    dsimp only
    rw [if_pos hcl]
    rw [if_neg (by simp [hg])]
    dsimp only
    obtain ⟨st', hl, ht⟩ := insertLoopCreateP_ok env n hsave (cleanData data) st
    by_cases hrand : optTrue (ctx.config.global.bind fun x => x.randomize) = true
    · rw [if_pos hrand, hl]
      exact ⟨st', rfl, ht⟩
    · rw [if_neg hrand, hl]
      exact ⟨st', rfl, ht⟩

def r8a : Record := [("a", Value.num 1)]

def r8b : Record := [("b", Value.num 2)]

def ctx8 : SeederCtx :=
  { models := [modelK], clients := ["k"],
    config := { global := some { randomize := some true } } }

/-- C8 counterexample: the Prisma variant with randomization requested still
creates the records one at a time in the generated order — the trace shows the
saves in the original order, while the oracle's shuffle of that list (which
the Mongoose variant would follow) reverses it. -/
theorem insert_claim8_cex :
    optTrue (ctx8.config.global.bind (·.randomize)) = true ∧
    (match insertDataP env0 ctx8 "K" [r8a, r8b] st0 with
     | .ok (c, st') => (c, st'.trace)
     | .error _ => (0, [])) =
      (2, [StoreOp.saveOp "K" r8a, StoreOp.saveOp "K" r8b]) ∧
    env0.oracle.shuffle st0.tick (cleanData [r8a, r8b]) = [r8b, r8a] :=
  ⟨rfl, rfl, rfl⟩

/-- C8 witness: on concrete inputs the Mongoose variant batches by default and
follows the shuffled order when randomizing, and the Prisma variant creates
one record at a time in the generated order. -/
theorem insert_batching_witness :
    ((exState (insertDataM env0 ctxP "K" [r8a, r8b] st0)).trace =
        st0.trace ++ [StoreOp.insertManyOp "K" (cleanData [r8a, r8b])] ∧
      (env0.failInsertMany "K" (cleanData [r8a, r8b]) = none →
        ∃ st', insertDataM env0 ctxP "K" [r8a, r8b] st0 =
          .ok ((cleanData [r8a, r8b]).length, st'))) ∧
    (∃ st', insertDataM env0 ctx8 "K" [r8a, r8b] st0 =
        .ok ((env0.oracle.shuffle st0.tick (cleanData [r8a, r8b])).length, st') ∧
      st'.trace = st0.trace ++
        (env0.oracle.shuffle st0.tick (cleanData [r8a, r8b])).map (StoreOp.saveOp "K")) ∧
    (∃ st', insertDataP env0 ctxP "K" [r8a, r8b] st0 =
        .ok ((cleanData [r8a, r8b]).length, st') ∧
      st'.trace = st0.trace ++ (cleanData [r8a, r8b]).map (StoreOp.saveOp "K")) :=
  ⟨(insert_batching env0 ctxP "K" [r8a, r8b] st0).1 rfl,
   (insert_batching env0 ctx8 "K" [r8a, r8b] st0).2.1 rfl (fun _ => rfl),
   (insert_batching env0 ctxP "K" [r8a, r8b] st0).2.2 rfl rfl (fun _ => rfl)⟩
